import Mathlib

/-!
Verification development for the market-sim Python replay and
cross-validation tools.  The definitions below are shallow embeddings of
the code in `src/tools/visualizer/order_book.py`, `src/tools/visualize_book.py`,
`src/tools/testing/pnl_tracker.py`, `src/tools/testing/state_comparator.py`
and `src/tools/analyze_adverse_selection.py`.  Python dicts are modelled as
association lists (insertion-ordered, unique keys in every reachable state),
`SortedDict`s as association lists kept in key order by the insert
operation, and `deque`s as plain lists.  All Python integers are `Int`.
-/

/-- Embeds `Side` from `order_book.py`. -/
inductive Side where
  | BUY
  | SELL
deriving DecidableEq, Repr

/-- Embeds the `Order` dataclass from `order_book.py`. -/
structure Order where
  order_id : Int
  client_id : Int
  side : Side
  price : Int
  quantity : Int
  timestamp : Int
deriving DecidableEq, Repr

/-- Lookup in an association list, modelling Python `d[k]` / `d.get(k)`:
the first entry with the given key. -/
def getAssoc {α : Type} (l : List (Int × α)) (k : Int) : Option α :=
  (l.find? (fun kv => kv.1 == k)).map (fun kv => kv.2)

/-- Assignment `d[k] = v` on a Python dict: update the existing entry in
place, or append a new entry at the end. -/
def setAssoc {α : Type} : List (Int × α) → Int → α → List (Int × α)
  | [], k, v => [(k, v)]
  | (k', v') :: rest, k, v =>
      if k' = k then (k, v) :: rest else (k', v') :: setAssoc rest k v

/-- Deletion `del d[k]` / `d.pop(k, None)` on a Python dict. -/
def delAssoc {α : Type} (l : List (Int × α)) (k : Int) : List (Int × α) :=
  l.filter (fun kv => kv.1 != k)

/-- Key order of the two `SortedDict`s in `OrderBook.__init__`: bids are
sorted by descending price (`lambda x: -x`), asks ascending. -/
def keyBefore (s : Side) (p k : Int) : Bool :=
  match s with
  | Side.BUY => k < p
  | Side.SELL => p < k

/-- Assignment `book[price] = queue` on a `SortedDict`: replace in place if
the key exists, otherwise insert at the key's sorted position. -/
def setLevel (s : Side) : List (Int × List Order) → Int → List Order → List (Int × List Order)
  | [], p, q => [(p, q)]
  | (k, v) :: rest, p, q =>
      if p = k then (p, q) :: rest
      else if keyBefore s p k then (p, q) :: (k, v) :: rest
      else (k, v) :: setLevel s rest p q

/-- Deletion `del book[price]` on a `SortedDict`. -/
def delLevel (bs : List (Int × List Order)) (p : Int) : List (Int × List Order) :=
  bs.filter (fun kv => kv.1 != p)

/-- Embeds the `OrderBook` state from `order_book.py` (`__init__`). -/
structure OrderBook where
  asks : List (Int × List Order)
  bids : List (Int × List Order)
  registry : List (Int × (Int × Side))
  order_add_timestamps : List (Int × Int)
  timestamp : Int
deriving DecidableEq, Repr

/-- The freshly constructed book of `OrderBook.__init__`. -/
def emptyBook : OrderBook :=
  { asks := [], bids := [], registry := [], order_add_timestamps := [], timestamp := 0 }

/-- Embeds `OrderBook._get_book`. -/
def OrderBook.getBook (b : OrderBook) (s : Side) : List (Int × List Order) :=
  match s with
  | Side.BUY => b.bids
  | Side.SELL => b.asks

/-- Writes back the side selected by `_get_book` (mutation in Python). -/
def OrderBook.setBook (b : OrderBook) (s : Side) (bs : List (Int × List Order)) : OrderBook :=
  match s with
  | Side.BUY => { b with bids := bs }
  | Side.SELL => { b with asks := bs }

/-- Embeds `OrderBook._add_order`: append to the (side, price) queue,
creating it if absent, and record the order in the registry. -/
def OrderBook.addOrder (b : OrderBook) (o : Order) : OrderBook :=
  let bs := b.getBook o.side
  let q := (getAssoc bs o.price).getD []
  let b' := b.setBook o.side (setLevel o.side bs o.price (q ++ [o]))
  { b' with registry := setAssoc b'.registry o.order_id (o.price, o.side) }

/-- The insertion loop of `OrderBook._add_order_sorted`: insert immediately
before the first existing order whose timestamp is strictly greater than the
new order's timestamp, appending at the tail if there is none. -/
def insertByTs (o : Order) : List Order → List Order
  | [] => [o]
  | x :: xs => if o.timestamp < x.timestamp then o :: x :: xs else x :: insertByTs o xs

/-- Embeds `OrderBook._add_order_sorted`. -/
def OrderBook.addOrderSorted (b : OrderBook) (o : Order) : OrderBook :=
  let bs := b.getBook o.side
  let bs' :=
    match getAssoc bs o.price with
    | none => setLevel o.side bs o.price [o]
    | some q => setLevel o.side bs o.price (insertByTs o q)
  let b' := b.setBook o.side bs'
  { b' with registry := setAssoc b'.registry o.order_id (o.price, o.side) }

/-- The queue scan of `OrderBook._remove_order`: delete the first order with
the given id, returning it together with the remaining queue. -/
def removeFromQueue (oid : Int) : List Order → Option (Order × List Order)
  | [] => none
  | x :: xs =>
      if x.order_id == oid then some (x, xs)
      else (removeFromQueue oid xs).map (fun pr => (pr.1, x :: pr.2))

/-- Embeds `OrderBook._remove_order`. -/
def OrderBook.removeOrder (b : OrderBook) (oid : Int) : OrderBook × Option Order :=
  match getAssoc b.registry oid with
  | none => (b, none)
  | some ps =>
      let bs := b.getBook ps.2
      match getAssoc bs ps.1 with
      | none => ({ b with registry := delAssoc b.registry oid }, none)
      | some queue =>
          match removeFromQueue oid queue with
          | none => ({ b with registry := delAssoc b.registry oid }, none)
          | some pr =>
              let bs' := if pr.2.isEmpty then delLevel bs ps.1 else setLevel ps.2 bs ps.1 pr.2
              let b' := b.setBook ps.2 bs'
              ({ b' with registry := delAssoc b'.registry oid }, some pr.1)

/-- The queue scan of `OrderBook._update_order_quantity`: set the quantity
of the first order with the given id. -/
def updateQtyInQueue (oid : Int) (newQty : Int) : List Order → List Order
  | [] => []
  | x :: xs =>
      if x.order_id == oid then { x with quantity := newQty } :: xs
      else x :: updateQtyInQueue oid newQty xs

/-- Embeds `OrderBook._update_order_quantity`. -/
def OrderBook.updateOrderQuantity (b : OrderBook) (oid : Int) (newQty : Int) : OrderBook :=
  match getAssoc b.registry oid with
  | none => b
  | some ps =>
      let bs := b.getBook ps.2
      match getAssoc bs ps.1 with
      | none => b
      | some queue => b.setBook ps.2 (setLevel ps.2 bs ps.1 (updateQtyInQueue oid newQty queue))

/-- Embeds the `delta_type` column values. -/
inductive DeltaType where
  | ADD
  | FILL
  | CANCEL
  | MODIFY
deriving DecidableEq, Repr

/-- Embeds a parsed delta row as read by `apply_delta` / `apply_reverse_delta`
(all integer fields already converted by `int(...)`). -/
structure Delta where
  timestamp : Int
  delta_type : DeltaType
  order_id : Int
  client_id : Int
  side : Side
  price : Int
  quantity : Int
  remaining_qty : Int
  new_order_id : Int
  new_price : Int
  new_quantity : Int
deriving DecidableEq, Repr

/-- Embeds `OrderBook.apply_delta`. -/
def applyDelta (b : OrderBook) (d : Delta) : OrderBook :=
  let b := { b with timestamp := d.timestamp }
  match d.delta_type with
  | DeltaType.ADD =>
      let o : Order := ⟨d.order_id, d.client_id, d.side, d.price, d.remaining_qty, d.timestamp⟩
      let b := b.addOrder o
      { b with order_add_timestamps := setAssoc b.order_add_timestamps d.order_id d.timestamp }
  | DeltaType.FILL =>
      if d.remaining_qty = 0 then (b.removeOrder d.order_id).1
      else b.updateOrderQuantity d.order_id d.remaining_qty
  | DeltaType.CANCEL => (b.removeOrder d.order_id).1
  | DeltaType.MODIFY =>
      let b := (b.removeOrder d.order_id).1
      let o : Order := ⟨d.new_order_id, d.client_id, d.side, d.new_price, d.new_quantity, d.timestamp⟩
      let b := b.addOrder o
      { b with order_add_timestamps := setAssoc b.order_add_timestamps d.new_order_id d.timestamp }

/-- Embeds `OrderBook.apply_reverse_delta`. -/
def applyReverseDelta (b : OrderBook) (d : Delta) (prev_timestamp : Int) : OrderBook :=
  let b' :=
    match d.delta_type with
    | DeltaType.ADD =>
        let b := (b.removeOrder d.order_id).1
        { b with order_add_timestamps := delAssoc b.order_add_timestamps d.order_id }
    | DeltaType.FILL =>
        let prevQty := d.remaining_qty + d.quantity
        if d.remaining_qty = 0 then
          match getAssoc b.order_add_timestamps d.order_id with
          | some origTs =>
              b.addOrderSorted ⟨d.order_id, d.client_id, d.side, d.price, prevQty, origTs⟩
          | none => b
        else b.updateOrderQuantity d.order_id prevQty
    | DeltaType.CANCEL =>
        let origTs := (getAssoc b.order_add_timestamps d.order_id).getD prev_timestamp
        b.addOrderSorted ⟨d.order_id, d.client_id, d.side, d.price, d.remaining_qty, origTs⟩
    | DeltaType.MODIFY =>
        let b := (b.removeOrder d.new_order_id).1
        let b := { b with order_add_timestamps := delAssoc b.order_add_timestamps d.new_order_id }
        let origTs := (getAssoc b.order_add_timestamps d.order_id).getD prev_timestamp
        b.addOrderSorted ⟨d.order_id, d.client_id, d.side, d.price, d.quantity, origTs⟩
  { b' with timestamp := prev_timestamp }

/-- Total quantity at a price level, the `sum(o.quantity for o in ...)`
expressions of `best_bid` / `best_ask`. -/
def sumQty (q : List Order) : Int :=
  (q.map (fun o => o.quantity)).sum

/-- Embeds `OrderBook.best_bid`: `None` on an empty side, else the first
(highest, by the descending sort) price with its total resting quantity. -/
def OrderBook.best_bid (b : OrderBook) : Option (Int × Int) :=
  match b.bids with
  | [] => none
  | (p, _) :: _ => some (p, sumQty ((getAssoc b.bids p).getD []))

/-- Embeds `OrderBook.best_ask`. -/
def OrderBook.best_ask (b : OrderBook) : Option (Int × Int) :=
  match b.asks with
  | [] => none
  | (p, _) :: _ => some (p, sumQty ((getAssoc b.asks p).getD []))

/-- Embeds `OrderBook.spread` (non-empty tuples are always truthy, so the
Python `if bb and ba` test is exactly a both-sides-present test). -/
def OrderBook.spread (b : OrderBook) : Option Int :=
  match b.best_bid, b.best_ask with
  | some bb, some ba => some (ba.1 - bb.1)
  | _, _ => none

/-- Embeds `OrderBook.midpoint`; Python's float division `(bb[0] + ba[0]) / 2`
of two ints is modelled as exact rational division. -/
def OrderBook.midpoint (b : OrderBook) : Option ℚ :=
  match b.best_bid, b.best_ask with
  | some bb, some ba => some (((bb.1 : ℚ) + (ba.1 : ℚ)) / 2)
  | _, _ => none

/-- Embeds the `PnLState` dataclass from `pnl_tracker.py`. -/
structure PnLState where
  long_position : Int
  short_position : Int
  cash : Int
deriving DecidableEq, Repr

/-- The default `PnLState()` of `_ensure_client`. -/
def zeroPnL : PnLState :=
  { long_position := 0, short_position := 0, cash := 0 }

/-- Embeds `PnLState.net_position`. -/
def PnLState.net_position (s : PnLState) : Int :=
  s.long_position - s.short_position

/-- Embeds the `PnLTracker` state: the dict `self.pnl` is modelled as its
key list in insertion order together with the value at every key. -/
structure PnLTracker where
  clients : List Int
  pnl : Int → PnLState

/-- The freshly constructed tracker of `PnLTracker.__init__`. -/
def initTracker : PnLTracker :=
  { clients := [], pnl := fun _ => zeroPnL }

/-- Embeds `PnLTracker._ensure_client`: create a zero entry if absent. -/
def PnLTracker.ensureClient (t : PnLTracker) (c : Int) : PnLTracker :=
  if t.clients.contains c then t
  else { clients := t.clients ++ [c], pnl := fun x => if x = c then zeroPnL else t.pnl x }

/-- Embeds one trade row as consumed by `PnLTracker.on_trade`. -/
structure TradeArgs where
  buyer_id : Int
  seller_id : Int
  price : Int
  quantity : Int
deriving DecidableEq, Repr

/-- The buyer update of `on_trade`: `long_position += quantity`,
`cash -= trade_value` on the buyer's entry. -/
def PnLTracker.updateBuyer (t : PnLTracker) (b q v : Int) : PnLTracker :=
  { t with pnl := fun x =>
      if x = b then
        { t.pnl b with long_position := (t.pnl b).long_position + q, cash := (t.pnl b).cash - v }
      else t.pnl x }

/-- The seller update of `on_trade`: `short_position += quantity`,
`cash += trade_value` on the seller's entry. -/
def PnLTracker.updateSeller (t : PnLTracker) (s q v : Int) : PnLTracker :=
  { t with pnl := fun x =>
      if x = s then
        { t.pnl s with short_position := (t.pnl s).short_position + q, cash := (t.pnl s).cash + v }
      else t.pnl x }

/-- Embeds `PnLTracker.on_trade`: ensure and update the buyer, then ensure
and update the seller (sequential, so a self-trade hits one shared entry
twice, as in Python where both names alias the same object). -/
def PnLTracker.onTrade (t : PnLTracker) (a : TradeArgs) : PnLTracker :=
  let tradeValue := a.quantity * a.price
  (((t.ensureClient a.buyer_id).updateBuyer a.buyer_id a.quantity tradeValue).ensureClient
      a.seller_id).updateSeller a.seller_id a.quantity tradeValue

/-- Embeds `PnLTracker.total_cash`. -/
def PnLTracker.totalCash (t : PnLTracker) : Int :=
  (t.clients.map (fun c => (t.pnl c).cash)).sum

/-- Embeds `PnLTracker.total_net_position`. -/
def PnLTracker.totalNetPosition (t : PnLTracker) : Int :=
  (t.clients.map (fun c => (t.pnl c).net_position)).sum

/-- A finite sequence of `on_trade` calls on a fresh tracker. -/
def applyTrades (trades : List TradeArgs) : PnLTracker :=
  trades.foldl PnLTracker.onTrade initTracker

/-- Embeds one order record of a reference snapshot (`state_NNNNNN.json`),
the `cpp_order` dict read by `StateComparator._compare_orders`. -/
structure CppOrder where
  order_id : Int
  client_id : Int
  quantity : Int
  price : Int
  side : Side
deriving DecidableEq, Repr

/-- Embeds one price level of a reference snapshot. -/
structure CppLevel where
  price : Int
  orders : List CppOrder
deriving DecidableEq, Repr

/-- Embeds one instrument's order book in a reference snapshot. -/
structure CppBook where
  bids : List CppLevel
  asks : List CppLevel
deriving DecidableEq, Repr

/-- Embeds one participant's PnL record as compared by `compare_pnl`
(fields read with `.get(field, 0)`). -/
structure PnLFields where
  long_position : Int
  short_position : Int
  cash : Int
deriving DecidableEq, Repr

/-- The zero default of `.get(field, 0)` in `compare_pnl` (used only when a
field is missing, which the record model makes impossible). -/
def zeroFields : PnLFields :=
  { long_position := 0, short_position := 0, cash := 0 }

/-- Embeds the full reference snapshot dict consumed by
`compare_full_state`. -/
structure CppState where
  order_books : List (Int × CppBook)
  pnl : List (Int × PnLFields)
  sequence_num : Int
  timestamp : Int

/-- One difference string appended by the comparator; each constructor
corresponds to one `differences.append(...)` site, carrying the data
interpolated into the message. -/
inductive Diff where
  | levelCount (inst : Int) (s : Side) (cppCount pyCount : Nat)
  | extraCppLevel (inst : Int) (s : Side) (price : Int)
  | levelPrice (inst : Int) (s : Side) (i : Nat) (cppPrice pyPrice : Int)
  | queueLength (inst : Int) (s : Side) (price : Int) (cppLen pyLen : Nat)
  | orderField (inst : Int) (s : Side) (price : Int) (j : Nat) (fieldName : String)
  | extraPyLevel (inst : Int) (s : Side) (price : Int)
  | pnlOnlyCpp (ids : List Int)
  | pnlOnlyPy (ids : List Int)
  | pnlField (client : Int) (fieldName : String)
  | booksOnlyCpp (ids : List Int)
  | booksOnlyPy (ids : List Int)
deriving DecidableEq, Repr

/-- Embeds `StateComparator._compare_orders`: one diff per disagreeing
field among order_id, client_id, quantity, price, side. -/
def compareOrders (c : CppOrder) (p : Order) (inst : Int) (s : Side) (price : Int) (j : Nat) : List Diff :=
  (if c.order_id ≠ p.order_id then [Diff.orderField inst s price j "order_id"] else [])
    ++ (if c.client_id ≠ p.client_id then [Diff.orderField inst s price j "client_id"] else [])
    ++ (if c.quantity ≠ p.quantity then [Diff.orderField inst s price j "quantity"] else [])
    ++ (if c.price ≠ p.price then [Diff.orderField inst s price j "price"] else [])
    ++ (if c.side ≠ p.side then [Diff.orderField inst s price j "side"] else [])

/-- The indexed loop of `StateComparator._compare_side`: walk the C++ levels
against `py_prices[i]`, looking the queue up in the full side dict as the
source does; `i` is the running loop index. -/
def compareLevelsAux (pySide : List (Int × List Order)) (s : Side) (inst : Int) :
    Nat → List CppLevel → List (Int × List Order) → List Diff
  | _, [], _ => []
  | i, c :: cs, [] =>
      Diff.extraCppLevel inst s c.price :: compareLevelsAux pySide s inst (i + 1) cs []
  | i, c :: cs, (p, _) :: ps =>
      (if c.price ≠ p then [Diff.levelPrice inst s i c.price p]
       else
         let pyOrders := (getAssoc pySide p).getD []
         if c.orders.length ≠ pyOrders.length then
           [Diff.queueLength inst s c.price c.orders.length pyOrders.length]
         else
           (c.orders.zip pyOrders).enum.flatMap
             (fun jp => compareOrders jp.2.1 jp.2.2 inst s c.price jp.1))
        ++ compareLevelsAux pySide s inst (i + 1) cs ps

/-- Embeds `StateComparator._compare_side`. -/
def compareSide (cppLevels : List CppLevel) (pySide : List (Int × List Order)) (s : Side) (inst : Int) : List Diff :=
  (if cppLevels.length ≠ pySide.length then
      [Diff.levelCount inst s cppLevels.length pySide.length]
    else [])
    ++ compareLevelsAux pySide s inst 0 cppLevels pySide
    ++ (pySide.drop cppLevels.length).map (fun kv => Diff.extraPyLevel inst s kv.1)

/-- Embeds `StateComparator.compare_order_books`. -/
def compareOrderBooks (cb : CppBook) (pb : OrderBook) (inst : Int) : List Diff :=
  compareSide cb.bids pb.bids Side.BUY inst ++ compareSide cb.asks pb.asks Side.SELL inst

/-- Embeds `StateComparator.compare_pnl` with tolerance `tol`. -/
def comparePnl (tol : Int) (cppPnl pyPnl : List (Int × PnLFields)) : List Diff :=
  let cppClients := (cppPnl.map Prod.fst).dedup
  let pyClients := (pyPnl.map Prod.fst).dedup
  let onlyCpp := cppClients.filter (fun c => !pyClients.contains c)
  let onlyPy := pyClients.filter (fun c => !cppClients.contains c)
  (if onlyCpp ≠ [] then [Diff.pnlOnlyCpp onlyCpp] else [])
    ++ (if onlyPy ≠ [] then [Diff.pnlOnlyPy onlyPy] else [])
    ++ (cppClients.filter (fun c => pyClients.contains c)).flatMap (fun c =>
        let cv := (getAssoc cppPnl c).getD zeroFields
        let pv := (getAssoc pyPnl c).getD zeroFields
        (if tol < |cv.long_position - pv.long_position| then [Diff.pnlField c "long_position"] else [])
          ++ (if tol < |cv.short_position - pv.short_position| then [Diff.pnlField c "short_position"] else [])
          ++ (if tol < |cv.cash - pv.cash| then [Diff.pnlField c "cash"] else []))

/-- Embeds `ComparisonResult`; `match` is modelled as `isMatch`. -/
structure ComparisonResult where
  isMatch : Bool
  sequence_num : Int
  timestamp : Int
  differences : List Diff

/-- The empty C++ book used as lookup default (lookups never miss when the
instrument-id sets agree). -/
def emptyCppBook : CppBook :=
  { bids := [], asks := [] }

/-- Embeds `StateComparator.compare_full_state`. -/
def compareFullState (tol : Int) (cpp : CppState) (pyBooks : List (Int × OrderBook)) (pyPnl : List (Int × PnLFields)) : ComparisonResult :=
  let cppInsts := (cpp.order_books.map Prod.fst).dedup
  let pyInsts := (pyBooks.map Prod.fst).dedup
  let onlyCpp := cppInsts.filter (fun c => !pyInsts.contains c)
  let onlyPy := pyInsts.filter (fun c => !cppInsts.contains c)
  let instDiffs :=
    (if onlyCpp ≠ [] then [Diff.booksOnlyCpp onlyCpp] else [])
      ++ (if onlyPy ≠ [] then [Diff.booksOnlyPy onlyPy] else [])
  let bookDiffs := (cppInsts.filter (fun c => pyInsts.contains c)).flatMap (fun inst =>
    compareOrderBooks ((getAssoc cpp.order_books inst).getD emptyCppBook)
      ((getAssoc pyBooks inst).getD emptyBook) inst)
  let pnlDiffs := comparePnl tol cpp.pnl pyPnl
  let allDiffs := instDiffs ++ bookDiffs ++ pnlDiffs
  { isMatch := allDiffs.isEmpty, sequence_num := cpp.sequence_num,
    timestamp := cpp.timestamp, differences := allDiffs }

/-- Specification predicate: one C++ order and one Python order agree on the
five compared fields. -/
def ordersAgreeB (c : CppOrder) (p : Order) : Bool :=
  c.order_id == p.order_id && c.client_id == p.client_id && c.quantity == p.quantity
    && c.price == p.price && c.side == p.side

/-- Specification predicate: a C++ level and a Python level pair up (equal
price, equal queue length, all paired orders agreeing). -/
def levelPairB (c : CppLevel) (kv : Int × List Order) : Bool :=
  c.price == kv.1 && c.orders.length == kv.2.length
    && (c.orders.zip kv.2).all (fun cp => ordersAgreeB cp.1 cp.2)

/-- Specification predicate: one side matches — equally many price levels,
pairwise matching. -/
def sideMatchesB (cppLevels : List CppLevel) (pySide : List (Int × List Order)) : Bool :=
  cppLevels.length == pySide.length && (cppLevels.zip pySide).all (fun x => levelPairB x.1 x.2)

/-- Specification predicate: both sides of a book match. -/
def bookMatchesB (cb : CppBook) (pb : OrderBook) : Bool :=
  sideMatchesB cb.bids pb.bids && sideMatchesB cb.asks pb.asks

/-- Specification predicate: all three PnL fields within tolerance. -/
def pnlFieldsOkB (tol : Int) (cv pv : PnLFields) : Bool :=
  decide (|cv.long_position - pv.long_position| ≤ tol)
    && decide (|cv.short_position - pv.short_position| ≤ tol)
    && decide (|cv.cash - pv.cash| ≤ tol)

/-- Specification predicate: the two PnL maps have equal client-id sets and
every shared client's fields are within tolerance. -/
def pnlMatchesB (tol : Int) (cppPnl pyPnl : List (Int × PnLFields)) : Bool :=
  let cppClients := (cppPnl.map Prod.fst).dedup
  let pyClients := (pyPnl.map Prod.fst).dedup
  cppClients.all (fun c => pyClients.contains c)
    && pyClients.all (fun c => cppClients.contains c)
    && cppClients.all (fun c =>
        !pyClients.contains c
          || pnlFieldsOkB tol ((getAssoc cppPnl c).getD zeroFields) ((getAssoc pyPnl c).getD zeroFields))

/-- Specification predicate for the whole state: equal instrument-id sets,
every instrument's book matching, and the PnL maps matching. -/
def stateMatchesB (tol : Int) (cpp : CppState) (pyBooks : List (Int × OrderBook)) (pyPnl : List (Int × PnLFields)) : Bool :=
  let cppInsts := (cpp.order_books.map Prod.fst).dedup
  let pyInsts := (pyBooks.map Prod.fst).dedup
  cppInsts.all (fun c => pyInsts.contains c)
    && pyInsts.all (fun c => cppInsts.contains c)
    && cppInsts.all (fun inst =>
        !pyInsts.contains inst
          || bookMatchesB ((getAssoc cpp.order_books inst).getD emptyCppBook)
              ((getAssoc pyBooks inst).getD emptyBook))
    && pnlMatchesB tol cpp.pnl pyPnl

/-- Embeds one data line of a deltas CSV file as seen by `DeltaIndex`:
the leading timestamp field (`int(line.split(",", 1)[0])`) plus the
remaining fields of the row. -/
structure Row where
  ts : Int
  rest : List String
deriving DecidableEq, Repr

/-- The scan loop of `DeltaIndex._build_index`: record `(timestamp, offset)`
whenever the timestamp differs from the previous line's.  Byte offsets are
modelled by row indices (the file is only ever seeked to line starts);
`i` is the index of the next row and `cur` the previous row's timestamp. -/
def buildIdx : List Row → Nat → Option Int → List (Int × Nat)
  | [], _, _ => []
  | r :: rs, i, cur =>
      if cur = some r.ts then buildIdx rs (i + 1) cur
      else (r.ts, i) :: buildIdx rs (i + 1) (some r.ts)

/-- The index built by `DeltaIndex._build_index` over the data rows. -/
def deltaIndex (rows : List Row) : List (Int × Nat) :=
  buildIdx rows 0 none

/-- The `timestamps` array of the index. -/
def idxTimestamps (rows : List Row) : List Int :=
  (deltaIndex rows).map Prod.fst

/-- Embeds `DeltaIndex.read_deltas_at_index`: seek to the stored offset and
read rows until the timestamp changes or the file ends. -/
def readAtIndex (rows : List Row) (k : Nat) : List Row :=
  if hk : k < (deltaIndex rows).length then
    (rows.drop ((deltaIndex rows).get ⟨k, hk⟩).2).takeWhile
      (fun r => r.ts == ((deltaIndex rows).get ⟨k, hk⟩).1)
  else []

/-- Embeds `DeltaIndex.read_deltas_up_to_index`: yield rows from the first
data row, stopping at the first row whose timestamp exceeds
`timestamps[idx]`. -/
def readUpToIndex (rows : List Row) (k : Nat) : List Row :=
  if hk : k < (deltaIndex rows).length then
    rows.takeWhile (fun r => decide (r.ts ≤ ((deltaIndex rows).get ⟨k, hk⟩).1))
  else []

/-- The file property assumed by the claim: all rows of equal timestamp are
contiguous. -/
def Contiguous (rows : List Row) : Prop :=
  ∀ i j l : Fin rows.length, i ≤ j → j ≤ l →
    (rows.get i).ts = (rows.get l).ts → (rows.get j).ts = (rows.get i).ts

instance : DecidablePred Contiguous := fun rows => by
  unfold Contiguous; infer_instance

/-- The file contract of the spec (§6): rows sorted by nondecreasing
timestamp. -/
def TsSorted (rows : List Row) : Prop :=
  List.Pairwise (fun a b => a.ts ≤ b.ts) rows

instance : DecidablePred TsSorted := fun rows => by
  unfold TsSorted; infer_instance

/-- Models Python `bisect.bisect_left(a, x)`: on a sorted list this is the
leftmost insertion point, i.e. the number of elements strictly below `x`. -/
def bisectLeft (a : List Int) (x : Int) : Nat :=
  a.countP (fun t => decide (t < x))

/-- Embeds `lookup_fair_price_at` from `analyze_adverse_selection.py`.
An out-of-range access into `fp_list` (impossible for the parallel lists the
caller supplies) is modelled as `none`. -/
def lookupFairPriceAt (ts_list fp_list : List Int) (target_ts : Int) : Option Int :=
  let idx := bisectLeft ts_list target_ts
  if idx < ts_list.length then fp_list.get? idx else none

/-- Embeds the loop body of `build_order_lifecycle`: ADD records the row's
timestamp for `order_id`; MODIFY records it for `order_id` and, when
`new_order_id != 0`, also for `new_order_id`. -/
def lifecycleStep (m : Int → Option Int) (r : Delta) : Int → Option Int :=
  match r.delta_type with
  | DeltaType.ADD => fun x => if x = r.order_id then some r.timestamp else m x
  | DeltaType.MODIFY =>
      let m1 : Int → Option Int := fun x => if x = r.order_id then some r.timestamp else m x
      if r.new_order_id ≠ 0 then
        fun x => if x = r.new_order_id then some r.timestamp else m1 x
      else m1
  | _ => m

/-- Embeds `build_order_lifecycle`: the dict is modelled as its lookup
function (`.get`). -/
def buildOrderLifecycle (rows : List Delta) : Int → Option Int :=
  rows.foldl lifecycleStep (fun _ => none)

/-- A delta row "names" an order id when it is an ADD for that id, a MODIFY
of that id, or a MODIFY whose nonzero `new_order_id` is that id. -/
def namesOrderB (r : Delta) (oid : Int) : Bool :=
  (r.delta_type == DeltaType.ADD && r.order_id == oid)
    || (r.delta_type == DeltaType.MODIFY
        && (r.order_id == oid || (r.new_order_id != 0 && r.new_order_id == oid)))

/-- Embeds one row of trades.csv as read by `compute_mm_fills`
(`aggressor_side` stays the raw CSV string). -/
structure TradeRow where
  timestamp : Int
  trade_id : Int
  buyer_id : Int
  seller_id : Int
  buyer_order_id : Int
  seller_order_id : Int
  price : Int
  quantity : Int
  fair_price : Int
  aggressor_side : String
deriving DecidableEq, Repr

/-- Embeds the `AgentInfo` dataclass from `analyze_adverse_selection.py`. -/
structure AgentInfo where
  client_id : Int
  agent_type : String
deriving DecidableEq, Repr

/-- Embeds the `MMFill` dataclass (`mm_side` stays the `"BUY"`/`"SELL"`
string of the source). -/
structure MMFill where
  fill_timestamp : Int
  trade_id : Int
  mm_order_id : Int
  mm_side : String
  quote_age : Int
  fill_price : Int
  fair_price : Int
  immediate_as : Int
  realized_as : List (Int × Option Int)
  counterparty_id : Int
  counterparty_type : String
deriving DecidableEq, Repr

/-- The loop body of `compute_mm_fills` for one trade row: `none` models
`continue` (no record emitted for this row). -/
def processTrade (mm_client_id : Int) (lifecycle : Int → Option Int)
    (ts_list fp_list : List Int) (agents : List (Int × AgentInfo))
    (horizons : List Int) (row : TradeRow) : Option MMFill :=
  let sel :=
    if row.aggressor_side = "BUY" ∧ row.seller_id = mm_client_id then
      some (row.seller_order_id, "SELL", row.buyer_id)
    else if row.aggressor_side = "SELL" ∧ row.buyer_id = mm_client_id then
      some (row.buyer_order_id, "BUY", row.seller_id)
    else none
  match sel with
  | none => none
  | some sel =>
      match lifecycle sel.1 with
      | none => none
      | some birth_ts =>
          let quote_age := row.timestamp - birth_ts
          let immediate_as :=
            if sel.2.1 = "BUY" then row.fair_price - row.price else row.price - row.fair_price
          let realized_as := horizons.map (fun h =>
            (h, match lookupFairPriceAt ts_list fp_list (row.timestamp + h) with
                | some future_fp =>
                    some (if sel.2.1 = "BUY" then future_fp - row.price else row.price - future_fp)
                | none => none))
          let cpType :=
            match getAssoc agents sel.2.2 with
            | some info => info.agent_type
            | none => "Unknown"
          some
            { fill_timestamp := row.timestamp, trade_id := row.trade_id,
              mm_order_id := sel.1, mm_side := sel.2.1, quote_age := quote_age,
              fill_price := row.price, fair_price := row.fair_price,
              immediate_as := immediate_as, realized_as := realized_as,
              counterparty_id := sel.2.2, counterparty_type := cpType }

/-- Embeds `compute_mm_fills`: the fills collected over all trade rows. -/
def computeMMFills (trades : List TradeRow) (mm_client_id : Int)
    (lifecycle : Int → Option Int) (ts_list fp_list : List Int)
    (agents : List (Int × AgentInfo)) (horizons : List Int) : List MMFill :=
  trades.filterMap (processTrade mm_client_id lifecycle ts_list fp_list agents horizons)

/-- Concrete CANCEL delta of an order id the empty book has never seen. -/
def cancelDeltaEx : Delta :=
  { timestamp := 10, delta_type := DeltaType.CANCEL, order_id := 1, client_id := 2,
    side := Side.BUY, price := 100, quantity := 5, remaining_qty := 7,
    new_order_id := 0, new_price := 0, new_quantity := 0 }

/-- Concrete ADD delta. -/
def addDeltaEx : Delta :=
  { timestamp := 10, delta_type := DeltaType.ADD, order_id := 1, client_id := 2,
    side := Side.BUY, price := 100, quantity := 0, remaining_qty := 5,
    new_order_id := 0, new_price := 0, new_quantity := 0 }

/-- Concrete FILL delta whose order id is unknown to the empty book. -/
def fillDeltaEx : Delta :=
  { timestamp := 5, delta_type := DeltaType.FILL, order_id := 1, client_id := 2,
    side := Side.SELL, price := 100, quantity := 3, remaining_qty := 4,
    new_order_id := 0, new_price := 0, new_quantity := 0 }

/-- A resting order used as concrete queue content. -/
def exOrder1 : Order := ⟨1, 7, Side.BUY, 100, 5, 10⟩

/-- An order with an earlier timestamp than `exOrder1`, to be re-inserted
ahead of it. -/
def exOrder2 : Order := ⟨2, 8, Side.BUY, 100, 3, 4⟩

/-- A book holding `exOrder1` at bid level 100. -/
def exBook : OrderBook :=
  { asks := [], bids := [(100, [exOrder1])], registry := [(1, (100, Side.BUY))],
    order_add_timestamps := [(1, 10)], timestamp := 10 }

/-- A book with one bid level and one ask level. -/
def exBook2 : OrderBook :=
  { asks := [(105, [⟨3, 7, Side.SELL, 105, 2, 11⟩])],
    bids := [(100, [exOrder1]), (99, [⟨4, 9, Side.BUY, 99, 6, 12⟩])],
    registry := [(1, (100, Side.BUY)), (3, (105, Side.SELL)), (4, (99, Side.BUY))],
    order_add_timestamps := [], timestamp := 12 }

/-- Delta-file rows that are contiguous by timestamp but not sorted. -/
def unsortedRowsEx : List Row :=
  [⟨9, []⟩, ⟨9, []⟩, ⟨5, []⟩, ⟨5, []⟩]

/-- Sorted delta-file rows. -/
def sortedRowsEx : List Row :=
  [⟨1, ["a"]⟩, ⟨1, ["b"]⟩, ⟨3, ["c"]⟩, ⟨7, ["d"]⟩]

/-- Deltas for the lifecycle example: ADD id 1 at tick 100, then a
price-changing MODIFY at tick 300 replacing it with id 2. -/
def lifecycleRowsEx : List Delta :=
  [{ timestamp := 100, delta_type := DeltaType.ADD, order_id := 1, client_id := 10,
     side := Side.BUY, price := 1000, quantity := 0, remaining_qty := 50,
     new_order_id := 0, new_price := 0, new_quantity := 0 },
   { timestamp := 300, delta_type := DeltaType.MODIFY, order_id := 1, client_id := 10,
     side := Side.BUY, price := 1000, quantity := 50, remaining_qty := 50,
     new_order_id := 2, new_price := 995, new_quantity := 50 }]

/-- A trade at tick 500 where a SELL aggressor hits the market maker's
resting replacement order id 2 (MM client id 10). -/
def tradeSellEx : TradeRow :=
  { timestamp := 500, trade_id := 42, buyer_id := 10, seller_id := 30,
    buyer_order_id := 2, seller_order_id := 77, price := 995, quantity := 50,
    fair_price := 990, aggressor_side := "SELL" }

/-- A trade where a BUY aggressor hits the market maker's resting sell
order (MM client id 10 is the seller). -/
def tradeBuyEx : TradeRow :=
  { timestamp := 600, trade_id := 43, buyer_id := 30, seller_id := 10,
    buyer_order_id := 88, seller_order_id := 2, price := 1001, quantity := 10,
    fair_price := 998, aggressor_side := "BUY" }

/-- The fill record `processTrade` produces for `tradeSellEx` against
`lifecycleRowsEx` with no horizons and no agent metadata. -/
def fillSellEx : MMFill :=
  { fill_timestamp := 500, trade_id := 42, mm_order_id := 2, mm_side := "BUY",
    quote_age := 200, fill_price := 995, fair_price := 990, immediate_as := -5,
    realized_as := [], counterparty_id := 30, counterparty_type := "Unknown" }

theorem getBook_setBook (b : OrderBook) (s : Side) (bs : List (Int × List Order)) :
    (b.setBook s bs).getBook s = bs := by
  cases s <;> rfl

theorem setBook_registry (b : OrderBook) (s : Side) (bs : List (Int × List Order)) :
    (b.setBook s bs).registry = b.registry := by
  cases s <;> rfl

theorem setBook_birth (b : OrderBook) (s : Side) (bs : List (Int × List Order)) :
    (b.setBook s bs).order_add_timestamps = b.order_add_timestamps := by
  cases s <;> rfl

theorem getBook_update_registry (b : OrderBook) (s : Side) (r : List (Int × (Int × Side))) :
    ({ b with registry := r } : OrderBook).getBook s = b.getBook s := by
  cases s <;> rfl

theorem getAssoc_setAssoc_self {α : Type} (l : List (Int × α)) (k : Int) (v : α) :
    getAssoc (setAssoc l k v) k = some v := by
  induction l with
  | nil => simp [setAssoc, getAssoc]
  | cons kv rest ih =>
      obtain ⟨k', v'⟩ := kv
      by_cases h : k' = k
      · simp [setAssoc, h, getAssoc]
      · simp only [setAssoc, if_neg h]
        have hk : (k' == k) = false := by simp [h]
        simpa [getAssoc, List.find?_cons, hk] using ih

theorem sum_shift (l : List Int) (hl : l.Nodup) (f g : Int → Int) (c d : Int)
    (hc : c ∈ l) (hne : ∀ x ∈ l, x ≠ c → g x = f x) (hgc : g c = f c + d) :
    (l.map g).sum = (l.map f).sum + d := by
  induction l with
  | nil => cases hc
  | cons a t ih =>
      rcases List.mem_cons.mp hc with heq | hct
      · subst heq
        have hnot : c ∉ t := (List.nodup_cons.mp hl).1
        have ht : ∀ x ∈ t, g x = f x := by
          intro x hx
          exact hne x (List.mem_cons_of_mem _ hx) (fun hxa => hnot (hxa ▸ hx))
        have : t.map g = t.map f := List.map_congr_left ht
        simp only [List.map_cons, List.sum_cons, hgc, this]
        ring
      · have hanec : a ≠ c := by
          intro h
          exact (List.nodup_cons.mp hl).1 (h ▸ hct)
        have hga : g a = f a := hne a (List.mem_cons_self a t) hanec
        have := ih (List.nodup_cons.mp hl).2 hct
          (fun x hx hxc => hne x (List.mem_cons_of_mem _ hx) hxc)
        simp only [List.map_cons, List.sum_cons, hga, this]
        ring

theorem ensure_clients_nodup (t : PnLTracker) (c : Int) (h : t.clients.Nodup) :
    (t.ensureClient c).clients.Nodup := by
  unfold PnLTracker.ensureClient
  split
  · exact h
  · next hc =>
      have : c ∉ t.clients := by
        intro hm
        exact hc (List.elem_eq_true_of_mem hm)
      simpa [List.nodup_append] using ⟨h, this⟩

theorem ensure_mem (t : PnLTracker) (c : Int) : c ∈ (t.ensureClient c).clients := by
  unfold PnLTracker.ensureClient
  split
  · next hc => exact List.mem_of_elem_eq_true hc
  · simp

theorem ensure_mem_mono (t : PnLTracker) (c x : Int) (hx : x ∈ t.clients) :
    x ∈ (t.ensureClient c).clients := by
  unfold PnLTracker.ensureClient
  split
  · exact hx
  · simp [hx]

theorem ensure_totalCash (t : PnLTracker) (c : Int) :
    (t.ensureClient c).totalCash = t.totalCash := by
  unfold PnLTracker.ensureClient
  split
  · rfl
  · next hc =>
      have hcm : c ∉ t.clients := fun hm => hc (List.elem_eq_true_of_mem hm)
      unfold PnLTracker.totalCash
      simp only [List.map_append, List.sum_append, List.map_cons, List.map_nil]
      have : ∀ x ∈ t.clients,
          ((if x = c then zeroPnL else t.pnl x).cash) = (t.pnl x).cash := by
        intro x hx
        have : x ≠ c := fun h => hcm (h ▸ hx)
        simp [this]
      rw [List.map_congr_left this]
      simp [zeroPnL]

theorem ensure_totalNet (t : PnLTracker) (c : Int) :
    (t.ensureClient c).totalNetPosition = t.totalNetPosition := by
  unfold PnLTracker.ensureClient
  split
  · rfl
  · next hc =>
      have hcm : c ∉ t.clients := fun hm => hc (List.elem_eq_true_of_mem hm)
      unfold PnLTracker.totalNetPosition
      simp only [List.map_append, List.sum_append, List.map_cons, List.map_nil]
      have : ∀ x ∈ t.clients,
          ((if x = c then zeroPnL else t.pnl x).net_position) = (t.pnl x).net_position := by
        intro x hx
        have : x ≠ c := fun h => hcm (h ▸ hx)
        simp [this]
      rw [List.map_congr_left this]
      simp [zeroPnL, PnLState.net_position]

theorem updateBuyer_totals (t : PnLTracker) (b q v : Int) (hl : t.clients.Nodup)
    (hb : b ∈ t.clients) :
    (t.updateBuyer b q v).totalCash = t.totalCash - v
      ∧ (t.updateBuyer b q v).totalNetPosition = t.totalNetPosition + q := by
  constructor
  · have := sum_shift t.clients hl (fun x => (t.pnl x).cash)
      (fun x => ((t.updateBuyer b q v).pnl x).cash) b (-v) hb
      (by intro x hx hxb; simp [PnLTracker.updateBuyer, hxb])
      (by simp [PnLTracker.updateBuyer]; ring)
    simpa [PnLTracker.totalCash, PnLTracker.updateBuyer, sub_eq_add_neg] using this
  · have := sum_shift t.clients hl (fun x => (t.pnl x).net_position)
      (fun x => ((t.updateBuyer b q v).pnl x).net_position) b q hb
      (by intro x hx hxb; simp [PnLTracker.updateBuyer, hxb])
      (by simp [PnLTracker.updateBuyer, PnLState.net_position]; ring)
    simpa [PnLTracker.totalNetPosition, PnLTracker.updateBuyer] using this

theorem updateSeller_totals (t : PnLTracker) (s q v : Int) (hl : t.clients.Nodup)
    (hs : s ∈ t.clients) :
    (t.updateSeller s q v).totalCash = t.totalCash + v
      ∧ (t.updateSeller s q v).totalNetPosition = t.totalNetPosition - q := by
  constructor
  · have := sum_shift t.clients hl (fun x => (t.pnl x).cash)
      (fun x => ((t.updateSeller s q v).pnl x).cash) s v hs
      (by intro x hx hxs; simp [PnLTracker.updateSeller, hxs])
      (by simp [PnLTracker.updateSeller])
    simpa [PnLTracker.totalCash, PnLTracker.updateSeller] using this
  · have := sum_shift t.clients hl (fun x => (t.pnl x).net_position)
      (fun x => ((t.updateSeller s q v).pnl x).net_position) s (-q) hs
      (by intro x hx hxs; simp [PnLTracker.updateSeller, hxs])
      (by simp [PnLTracker.updateSeller, PnLState.net_position]; ring)
    simpa [PnLTracker.totalNetPosition, PnLTracker.updateSeller, sub_eq_add_neg] using this

theorem onTrade_preserves (t : PnLTracker) (a : TradeArgs) (h : t.clients.Nodup) :
    (t.onTrade a).totalCash = t.totalCash
      ∧ (t.onTrade a).totalNetPosition = t.totalNetPosition
      ∧ (t.onTrade a).clients.Nodup := by
  have h1 := ensure_clients_nodup t a.buyer_id h
  have hb1 : a.buyer_id ∈ (t.ensureClient a.buyer_id).clients := ensure_mem t a.buyer_id
  set t1 := t.ensureClient a.buyer_id with ht1
  have hub := updateBuyer_totals t1 a.buyer_id a.quantity (a.quantity * a.price) h1 hb1
  set t2 := t1.updateBuyer a.buyer_id a.quantity (a.quantity * a.price) with ht2
  have h2 : t2.clients.Nodup := h1
  have h3 := ensure_clients_nodup t2 a.seller_id h2
  have hs1 : a.seller_id ∈ (t2.ensureClient a.seller_id).clients := ensure_mem t2 a.seller_id
  set t3 := t2.ensureClient a.seller_id with ht3
  have hus := updateSeller_totals t3 a.seller_id a.quantity (a.quantity * a.price) h3 hs1
  have hcash : (t.onTrade a).totalCash = t.totalCash := by
    show (t3.updateSeller a.seller_id a.quantity (a.quantity * a.price)).totalCash = _
    rw [hus.1, ht3, ensure_totalCash, hub.1, ht1, ensure_totalCash]
    ring
  have hnet : (t.onTrade a).totalNetPosition = t.totalNetPosition := by
    show (t3.updateSeller a.seller_id a.quantity (a.quantity * a.price)).totalNetPosition = _
    rw [hus.2, ht3, ensure_totalNet, hub.2, ht1, ensure_totalNet]
    ring
  exact ⟨hcash, hnet, h3⟩

theorem foldl_onTrade_preserves (l : List TradeArgs) (t : PnLTracker) (h : t.clients.Nodup) :
    (l.foldl PnLTracker.onTrade t).totalCash = t.totalCash
      ∧ (l.foldl PnLTracker.onTrade t).totalNetPosition = t.totalNetPosition
      ∧ (l.foldl PnLTracker.onTrade t).clients.Nodup := by
  induction l generalizing t with
  | nil => exact ⟨rfl, rfl, h⟩
  | cons a rest ih =>
      have hstep := onTrade_preserves t a h
      have := ih (t.onTrade a) hstep.2.2
      exact ⟨by rw [List.foldl_cons, this.1, hstep.1],
        by rw [List.foldl_cons, this.2.1, hstep.2.1], this.2.2⟩

/-- C3.  Closed-system PnL invariant: after any finite sequence of
`on_trade` calls on a freshly constructed `PnLTracker` — any integer
arguments, including self-trades — `total_cash()` returns 0 and
`total_net_position()` returns 0. -/
theorem pnl_closed_system (trades : List TradeArgs) :
    (applyTrades trades).totalCash = 0 ∧ (applyTrades trades).totalNetPosition = 0 := by
  have h := foldl_onTrade_preserves trades initTracker (by simp [initTracker])
  exact ⟨h.1, h.2.1⟩

/-- C4.  Unknown-id tolerance: a FILL or CANCEL delta whose order id is not
in the registry leaves bids, asks, registry and birth-timestamp map
unchanged; only the book's current timestamp is set. -/
theorem unknown_id_noop (b : OrderBook) (d : Delta)
    (htype : d.delta_type = DeltaType.FILL ∨ d.delta_type = DeltaType.CANCEL)
    (hreg : getAssoc b.registry d.order_id = none) :
    applyDelta b d = { b with timestamp := d.timestamp } := by
  rcases htype with h | h
  · simp only [applyDelta, h]
    split
    · simp [OrderBook.removeOrder, hreg]
    · simp [OrderBook.updateOrderQuantity, hreg]
  · simp only [applyDelta, h]
    simp [OrderBook.removeOrder, hreg]

/-- Witness for C4 at a concrete FILL delta on the empty book. -/
theorem unknown_id_noop_witness :
    applyDelta emptyBook fillDeltaEx = { emptyBook with timestamp := 5 } :=
  unknown_id_noop emptyBook fillDeltaEx (Or.inl rfl) (by decide)

theorem lookup_none_iff (ts fp : List Int) (target : Int) (hlen : ts.length = fp.length) :
    lookupFairPriceAt ts fp target = none ↔ ∀ t ∈ ts, t < target := by
  unfold lookupFairPriceAt bisectLeft
  by_cases h : ts.countP (fun t => decide (t < target)) < ts.length
  · simp only [h, if_true]
    constructor
    · intro hg
      exfalso
      have : ts.countP (fun t => decide (t < target)) < fp.length := hlen ▸ h
      rw [List.get?_eq_none] at hg
      omega
    · intro hall
      exfalso
      have := (List.countP_eq_length (p := fun t => decide (t < target))).mpr
        (fun a ha => by simp only [decide_eq_true_eq]; exact hall a ha)
      omega
  · simp only [h, if_false]
    constructor
    · intro _
      have hc : ts.countP (fun t => decide (t < target)) = ts.length := by
        have := List.countP_le_length (l := ts) (p := fun t => decide (t < target))
        omega
      intro t ht
      simpa using List.countP_eq_length.mp hc t ht
    · intro _; trivial

theorem countP_split (ts : List Int) (target : Int) (i : Fin ts.length)
    (hs : List.Pairwise (· ≤ ·) ts)
    (hi : target ≤ ts.get i)
    (hj : ∀ j : Fin ts.length, (j : Nat) < (i : Nat) → ts.get j < target) :
    ts.countP (fun t => decide (t < target)) = (i : Nat) := by
  have key : (ts.take i ++ ts.drop i).countP (fun t => decide (t < target))
      = ts.countP (fun t => decide (t < target)) := by
    rw [List.take_append_drop]
  rw [← key, List.countP_append]
  have hlen : (ts.take (i : Nat)).length = (i : Nat) := by
    simp [List.length_take, Nat.min_eq_left (le_of_lt i.isLt)]
  have h1 : (ts.take (i : Nat)).countP (fun t => decide (t < target))
      = (ts.take (i : Nat)).length := by
    apply List.countP_eq_length.mpr
    intro a ha
    rcases List.mem_iff_get.mp ha with ⟨j, hjget⟩
    have hjlt : (j : Nat) < (i : Nat) := by
      have := j.isLt
      omega
    have hjlt2 : (j : Nat) < ts.length := by
      have := i.isLt
      omega
    have hg : (ts.take (i : Nat)).get j = ts.get ⟨j, hjlt2⟩ := by
      simp [List.getElem_take]
    rw [hg] at hjget
    subst hjget
    simpa using hj ⟨j, hjlt2⟩ hjlt
  have h2 : (ts.drop (i : Nat)).countP (fun t => decide (t < target)) = 0 := by
    apply List.countP_eq_zero.mpr
    intro a ha
    rcases List.mem_iff_get.mp ha with ⟨j, hjget⟩
    have hjb : (i : Nat) + (j : Nat) < ts.length := by
      have := j.isLt
      simp only [List.length_drop] at this
      omega
    have hg : (ts.drop (i : Nat)).get j = ts.get ⟨(i : Nat) + j, hjb⟩ := by
      simp [List.getElem_drop]
    rw [hg] at hjget
    subst hjget
    have hle : ts.get i ≤ ts.get ⟨(i : Nat) + (j : Nat), hjb⟩ := by
      rcases Nat.eq_zero_or_pos (j : Nat) with hz | hp
      · have hii : (i : Nat) = (i : Nat) + (j : Nat) := by omega
        exact le_of_eq (congrArg ts.get (Fin.ext hii))
      · exact (List.pairwise_iff_get.mp hs) i ⟨(i : Nat) + j, hjb⟩ (by
          simp only [Fin.lt_def]
          omega)
    simp only [decide_eq_true_eq]
    omega
  rw [h1, hlen]
  omega

/-- C7.  Fair-price lookup: with `ts_list` sorted ascending and the two
lists parallel, `lookup_fair_price_at` returns `fp_list[i]` for the leftmost
index `i` with `ts_list[i] ≥ target`, and returns `None` exactly when no
element of `ts_list` is `≥ target`. -/
theorem lookup_fair_price_spec (ts fp : List Int) (target : Int)
    (hs : List.Pairwise (· ≤ ·) ts) (hlen : ts.length = fp.length) :
    (lookupFairPriceAt ts fp target = none ↔ ∀ t ∈ ts, t < target)
    ∧ (∀ i : Fin ts.length, target ≤ ts.get i →
        (∀ j : Fin ts.length, (j : Nat) < (i : Nat) → ts.get j < target) →
        lookupFairPriceAt ts fp target = fp.get? (i : Nat)) := by
  refine ⟨lookup_none_iff ts fp target hlen, ?_⟩
  intro i hi hj
  have hcount := countP_split ts target i hs hi hj
  unfold lookupFairPriceAt bisectLeft
  rw [hcount]
  simp [i.isLt]

/-- Witness for C7: on the sorted series `[1, 3, 5]` with prices
`[10, 30, 50]`, the lookup at target 2 returns the price at the leftmost
timestamp ≥ 2. -/
theorem lookup_fair_price_witness :
    lookupFairPriceAt [1, 3, 5] [10, 30, 50] 2 = some 30 := by
  have h := (lookup_fair_price_spec [1, 3, 5] [10, 30, 50] 2 (by decide) (by decide)).2
    ⟨1, by decide⟩ (by decide) (by decide)
  exact h.trans (by decide)

theorem insertByTs_char (o : Order) (q : List Order) :
    insertByTs o q = q.take ((q.takeWhile (fun x => decide (x.timestamp ≤ o.timestamp))).length)
      ++ o :: q.drop ((q.takeWhile (fun x => decide (x.timestamp ≤ o.timestamp))).length) := by
  induction q with
  | nil => simp [insertByTs]
  | cons x xs ih =>
      by_cases h : o.timestamp < x.timestamp
      · have hx : (decide (x.timestamp ≤ o.timestamp)) = false := by
          simp
          omega
        simp [insertByTs, h, List.takeWhile_cons, hx]
      · have hx : (decide (x.timestamp ≤ o.timestamp)) = true := by
          simp
          omega
        simp [insertByTs, h, List.takeWhile_cons, hx, ih]

theorem getAssoc_setLevel (s : Side) (bs : List (Int × List Order)) (p : Int) (q : List Order) :
    getAssoc (setLevel s bs p q) p = some q := by
  induction bs with
  | nil => simp [setLevel, getAssoc]
  | cons kv rest ih =>
      obtain ⟨k, v⟩ := kv
      by_cases h : p = k
      · simp [setLevel, h, getAssoc]
      · by_cases hb : keyBefore s p k
        · simp [setLevel, h, hb, getAssoc]
        · have hk : (k == p) = false := by
            simp
            exact fun he => h he.symm
          simp only [setLevel, if_neg h, if_neg hb]
          simpa [getAssoc, List.find?_cons, hk] using ih

theorem getBook_update_birth (b : OrderBook) (s : Side) (m : List (Int × Int)) :
    ({ b with order_add_timestamps := m } : OrderBook).getBook s = b.getBook s := by
  cases s <;> rfl

/-- C2.  FIFO-sort re-insertion: `_add_order_sorted` inserts the order at
the position of the first existing queue element with a strictly greater
timestamp (the length of the `timestamp ≤ o.timestamp` front segment),
appending at the tail when there is none; a missing queue becomes the
one-element queue `[o]`; and the registry maps the order id to
`(price, side)` in every case. -/
theorem add_order_sorted_spec (b : OrderBook) (o : Order) :
    (∀ q, getAssoc (b.getBook o.side) o.price = some q →
        getAssoc ((b.addOrderSorted o).getBook o.side) o.price =
          some (q.take ((q.takeWhile (fun x => decide (x.timestamp ≤ o.timestamp))).length)
            ++ o :: q.drop ((q.takeWhile (fun x => decide (x.timestamp ≤ o.timestamp))).length)))
    ∧ (getAssoc (b.getBook o.side) o.price = none →
        getAssoc ((b.addOrderSorted o).getBook o.side) o.price = some [o])
    ∧ getAssoc (b.addOrderSorted o).registry o.order_id = some (o.price, o.side) := by
  refine ⟨?_, ?_, ?_⟩
  · intro q hq
    simp only [OrderBook.addOrderSorted, hq]
    rw [getBook_update_registry, getBook_setBook, getAssoc_setLevel, insertByTs_char]
  · intro hq
    simp only [OrderBook.addOrderSorted, hq]
    rw [getBook_update_registry, getBook_setBook, getAssoc_setLevel]
  · simp only [OrderBook.addOrderSorted]
    cases hq : getAssoc (b.getBook o.side) o.price
    · simp only [hq, setBook_registry]
      exact getAssoc_setAssoc_self _ _ _
    · simp only [hq, setBook_registry]
      exact getAssoc_setAssoc_self _ _ _

/-- Witness for C2: re-inserting `exOrder2` (timestamp 4) into the
one-order queue of `exBook` (whose resident has timestamp 10) lands ahead
of the resident, and the registry is updated. -/
theorem add_order_sorted_witness :
    getAssoc ((exBook.addOrderSorted exOrder2).getBook Side.BUY) 100 = some [exOrder2, exOrder1]
    ∧ getAssoc (exBook.addOrderSorted exOrder2).registry 2 = some (100, Side.BUY) := by
  have h := add_order_sorted_spec exBook exOrder2
  exact ⟨(h.1 [exOrder1] (by decide)).trans (by decide), h.2.2⟩

/-- C10.  Empty-side queries: `best_bid` / `best_ask` return `None` exactly
on an empty side and otherwise the best price with its total resting
quantity (the head of the sorted side, which carries the maximal bid price
resp. minimal ask price); `spread` and `midpoint` return `None` whenever a
side is empty and otherwise `best_ask − best_bid` resp. the average of the
two best prices. -/
theorem book_queries_spec (b : OrderBook)
    (hb : List.Pairwise (fun x y => x > y) (b.bids.map Prod.fst))
    (ha : List.Pairwise (fun x y => x < y) (b.asks.map Prod.fst)) :
    (b.best_bid = none ↔ b.bids = [])
    ∧ (b.best_ask = none ↔ b.asks = [])
    ∧ (∀ p q rest, b.bids = (p, q) :: rest →
        b.best_bid = some (p, sumQty q) ∧ ∀ p' ∈ b.bids.map Prod.fst, p' ≤ p)
    ∧ (∀ p q rest, b.asks = (p, q) :: rest →
        b.best_ask = some (p, sumQty q) ∧ ∀ p' ∈ b.asks.map Prod.fst, p ≤ p')
    ∧ (b.spread = none ↔ (b.bids = [] ∨ b.asks = []))
    ∧ (b.midpoint = none ↔ (b.bids = [] ∨ b.asks = []))
    ∧ (∀ bp bq ap aq, b.best_bid = some (bp, bq) → b.best_ask = some (ap, aq) →
        b.spread = some (ap - bp) ∧ b.midpoint = some (((bp : ℚ) + (ap : ℚ)) / 2)) := by
  have hbid_none : b.best_bid = none ↔ b.bids = [] := by
    cases hbids : b.bids with
    | nil => simp [OrderBook.best_bid, hbids]
    | cons kv rest =>
        obtain ⟨p, q⟩ := kv
        simp [OrderBook.best_bid, hbids]
  have hask_none : b.best_ask = none ↔ b.asks = [] := by
    cases hasks : b.asks with
    | nil => simp [OrderBook.best_ask, hasks]
    | cons kv rest =>
        obtain ⟨p, q⟩ := kv
        simp [OrderBook.best_ask, hasks]
  have hbid_head : ∀ p q rest, b.bids = (p, q) :: rest →
      b.best_bid = some (p, sumQty q) ∧ ∀ p' ∈ b.bids.map Prod.fst, p' ≤ p := by
    intro p q rest hbids
    constructor
    · simp [OrderBook.best_bid, hbids, getAssoc]
    · intro p' hp'
      have hb' := hb
      rw [hbids] at hb'
      simp only [List.map_cons] at hb'
      have hhead := (List.pairwise_cons.mp hb').1
      rw [hbids] at hp'
      simp only [List.map_cons] at hp'
      rcases List.mem_cons.mp hp' with heq | hmem
      · exact le_of_eq heq
      · exact le_of_lt (hhead p' hmem)
  have hask_head : ∀ p q rest, b.asks = (p, q) :: rest →
      b.best_ask = some (p, sumQty q) ∧ ∀ p' ∈ b.asks.map Prod.fst, p ≤ p' := by
    intro p q rest hasks
    constructor
    · simp [OrderBook.best_ask, hasks, getAssoc]
    · intro p' hp'
      have ha' := ha
      rw [hasks] at ha'
      simp only [List.map_cons] at ha'
      have hhead := (List.pairwise_cons.mp ha').1
      rw [hasks] at hp'
      simp only [List.map_cons] at hp'
      rcases List.mem_cons.mp hp' with heq | hmem
      · exact le_of_eq heq.symm
      · exact le_of_lt (hhead p' hmem)
  have hspread_none : b.spread = none ↔ (b.bids = [] ∨ b.asks = []) := by
    cases hbb : b.best_bid with
    | none =>
        simp [OrderBook.spread, hbb]
        exact Or.inl (hbid_none.mp hbb)
    | some bb =>
        cases hba : b.best_ask with
        | none =>
            simp [OrderBook.spread, hbb, hba]
            exact Or.inr (hask_none.mp hba)
        | some ba =>
            simp only [OrderBook.spread, hbb, hba]
            constructor
            · intro h
              cases h
            · intro h
              rcases h with h | h
              · exact absurd (hbid_none.mpr h) (by simp [hbb])
              · exact absurd (hask_none.mpr h) (by simp [hba])
  have hmid_none : b.midpoint = none ↔ (b.bids = [] ∨ b.asks = []) := by
    cases hbb : b.best_bid with
    | none =>
        simp [OrderBook.midpoint, hbb]
        exact Or.inl (hbid_none.mp hbb)
    | some bb =>
        cases hba : b.best_ask with
        | none =>
            simp [OrderBook.midpoint, hbb, hba]
            exact Or.inr (hask_none.mp hba)
        | some ba =>
            simp only [OrderBook.midpoint, hbb, hba]
            constructor
            · intro h
              cases h
            · intro h
              rcases h with h | h
              · exact absurd (hbid_none.mpr h) (by simp [hbb])
              · exact absurd (hask_none.mpr h) (by simp [hba])
  refine ⟨hbid_none, hask_none, hbid_head, hask_head, hspread_none, hmid_none, ?_⟩
  intro bp bq ap aq hbb hba
  constructor
  · simp [OrderBook.spread, hbb, hba]
  · simp [OrderBook.midpoint, hbb, hba]

/-- Witness for C10 on a two-bid-level, one-ask-level book. -/
theorem book_queries_witness :
    exBook2.best_bid = some (100, 5) ∧ exBook2.spread = some 5 := by
  have h := book_queries_spec exBook2 (by decide) (by decide)
  have hbb := (h.2.2.1 100 [exOrder1] [(99, [⟨4, 9, Side.BUY, 99, 6, 12⟩])] (by decide)).1
  have hba := (h.2.2.2.1 105 [⟨3, 7, Side.SELL, 105, 2, 11⟩] [] (by decide)).1
  have hsp := (h.2.2.2.2.2.2 100 (sumQty [exOrder1]) 105 (sumQty [⟨3, 7, Side.SELL, 105, 2, 11⟩])
    hbb hba).1
  exact ⟨hbb.trans (by decide), hsp.trans (by decide)⟩

/-- C8.  Maker-fill extraction: a trade row produces a record exactly when
the MM was the resting side (BUY aggressor hitting the MM as seller, or
SELL aggressor hitting the MM as buyer) and the MM order id is present in
the lifecycle map; the emitted record carries the stated side, order id and
immediate adverse selection; all other trades produce no record. -/
theorem compute_mm_fills_spec (mm : Int) (lifecycle : Int → Option Int)
    (ts_list fp_list : List Int) (agents : List (Int × AgentInfo))
    (horizons : List Int) (trades : List TradeRow) (row : TradeRow) :
    computeMMFills trades mm lifecycle ts_list fp_list agents horizons
      = trades.filterMap (processTrade mm lifecycle ts_list fp_list agents horizons)
    ∧ ((processTrade mm lifecycle ts_list fp_list agents horizons row).isSome ↔
        ((row.aggressor_side = "BUY" ∧ row.seller_id = mm
            ∧ (lifecycle row.seller_order_id).isSome)
          ∨ (row.aggressor_side = "SELL" ∧ row.buyer_id = mm
            ∧ (lifecycle row.buyer_order_id).isSome)))
    ∧ (∀ fill, processTrade mm lifecycle ts_list fp_list agents horizons row = some fill →
        ((row.aggressor_side = "BUY" ∧ row.seller_id = mm →
            fill.mm_side = "SELL" ∧ fill.mm_order_id = row.seller_order_id
              ∧ fill.immediate_as = row.price - row.fair_price)
          ∧ (row.aggressor_side = "SELL" ∧ row.buyer_id = mm →
            fill.mm_side = "BUY" ∧ fill.mm_order_id = row.buyer_order_id
              ∧ fill.immediate_as = row.fair_price - row.price))) := by
  refine ⟨rfl, ?_, ?_⟩
  · by_cases hA : row.aggressor_side = "BUY" ∧ row.seller_id = mm
    · simp only [processTrade, if_pos hA]
      cases hl : lifecycle row.seller_order_id with
      | none => simp [hl, hA, show ("BUY" : String) ≠ "SELL" from by decide]
      | some birth => simp [hl, hA]
    · by_cases hB : row.aggressor_side = "SELL" ∧ row.buyer_id = mm
      · simp only [processTrade, if_neg hA, if_pos hB]
        cases hl : lifecycle row.buyer_order_id with
        | none => simp [hl, hB, hA]
        | some birth => simp [hl, hB, hA]
      · simp only [processTrade, if_neg hA, if_neg hB]
        simp only [Option.isSome_none, Bool.false_eq_true, false_iff]
        intro h
        rcases h with ⟨h1, h2, _⟩ | ⟨h1, h2, _⟩
        · exact hA ⟨h1, h2⟩
        · exact hB ⟨h1, h2⟩
  · intro fill hfill
    constructor
    · intro hA
      simp only [processTrade, if_pos hA] at hfill
      cases hl : lifecycle row.seller_order_id with
      | none =>
          rw [hl] at hfill
          simp at hfill
      | some birth =>
          rw [hl] at hfill
          simp only [Option.some.injEq] at hfill
          subst hfill
          refine ⟨rfl, rfl, ?_⟩
          simp [show ¬(("SELL" : String) = "BUY") from by decide]
    · intro hB
      have hnA : ¬(row.aggressor_side = "BUY" ∧ row.seller_id = mm) := by
        intro h
        rw [hB.1] at h
        exact absurd h.1 (by decide)
      simp only [processTrade, if_neg hnA, if_pos hB] at hfill
      cases hl : lifecycle row.buyer_order_id with
      | none =>
          rw [hl] at hfill
          simp at hfill
      | some birth =>
          rw [hl] at hfill
          simp only [Option.some.injEq] at hfill
          subst hfill
          exact ⟨rfl, rfl, by simp⟩

/-- Witness for C8: the BUY-aggressor trade `tradeBuyEx` against MM client
10 yields a record with mm_side SELL, the seller's order id, and
`immediate_as = fill − fair`. -/
theorem compute_mm_fills_witness :
    (processTrade 10 (buildOrderLifecycle lifecycleRowsEx) [] [] [] [] tradeBuyEx).isSome = true := by
  have h := (compute_mm_fills_spec 10 (buildOrderLifecycle lifecycleRowsEx) [] [] [] []
    [] tradeBuyEx).2.1
  exact h.mpr (Or.inl ⟨rfl, rfl, by decide⟩)

theorem lifecycleStep_eval (m : Int → Option Int) (r : Delta) (oid : Int) :
    lifecycleStep m r oid = if namesOrderB r oid then some r.timestamp else m oid := by
  cases hdt : r.delta_type with
  | ADD =>
      by_cases h : oid = r.order_id
      · have e : (r.order_id == oid) = true := by simp [h]
        simp [lifecycleStep, hdt, namesOrderB, h, e]
      · have e : (r.order_id == oid) = false := by
          rw [beq_eq_false_iff_ne]
          exact fun hc => h hc.symm
        simp [lifecycleStep, hdt, namesOrderB, h, e]
  | FILL => simp [lifecycleStep, hdt, namesOrderB]
  | CANCEL => simp [lifecycleStep, hdt, namesOrderB]
  | MODIFY =>
      by_cases hn : r.new_order_id ≠ 0
      · by_cases h1 : oid = r.new_order_id
        · have e1 : (r.new_order_id == oid) = true := by simp [h1]
          have e2 : (r.new_order_id != 0) = true := by simpa using hn
          simp [lifecycleStep, hdt, namesOrderB, hn, h1, e1, e2]
        · have e1 : (r.new_order_id == oid) = false := by
            rw [beq_eq_false_iff_ne]
            exact fun hc => h1 hc.symm
          by_cases h2 : oid = r.order_id
          · have e3 : (r.order_id == oid) = true := by simp [h2]
            simp [lifecycleStep, hdt, namesOrderB, hn, h1, h2, e1, e3]
          · have e3 : (r.order_id == oid) = false := by
              rw [beq_eq_false_iff_ne]
              exact fun hc => h2 hc.symm
            simp [lifecycleStep, hdt, namesOrderB, hn, h1, h2, e1, e3]
      · have h0 : r.new_order_id = 0 := by omega
        by_cases h2 : oid = r.order_id
        · have e3 : (r.order_id == oid) = true := by simp [h2]
          simp [lifecycleStep, hdt, namesOrderB, hn, h0, h2, e3]
        · have e3 : (r.order_id == oid) = false := by
            rw [beq_eq_false_iff_ne]
            exact fun hc => h2 hc.symm
          simp [lifecycleStep, hdt, namesOrderB, hn, h0, h2, e3]

theorem foldl_lifecycle (rows : List Delta) (m : Int → Option Int) (oid : Int) :
    (rows.foldl lifecycleStep m) oid =
      match (rows.filter (fun r => namesOrderB r oid)).getLast? with
      | some r => some r.timestamp
      | none => m oid := by
  induction rows generalizing m with
  | nil => rfl
  | cons r rs ih =>
      rw [List.foldl_cons, ih]
      by_cases h : namesOrderB r oid = true
      · simp only [List.filter_cons, h, if_true]
        cases hfil : rs.filter (fun r => namesOrderB r oid) with
        | nil => simp [hfil, lifecycleStep_eval, h]
        | cons a l =>
            rw [List.getLast?_cons_cons]
            cases hlast : (a :: l).getLast? with
            | none => simp at hlast
            | some r' => simp [hlast]
      · have h' : namesOrderB r oid = false := by
          revert h
          cases namesOrderB r oid <;> simp
        simp only [List.filter_cons, h', if_false, Bool.false_eq_true]
        cases hfil : (rs.filter (fun r => namesOrderB r oid)).getLast? with
        | none => simp [hfil, lifecycleStep_eval, h']
        | some r' => simp [hfil, lifecycleStep_eval, h']

/-- C9.  Quote-age anchor: `build_order_lifecycle` maps an order id to the
timestamp of the last delta row naming it (an ADD of the id, a MODIFY of
the id, or a MODIFY whose nonzero `new_order_id` is the id); consequently a
qualifying maker fill's `quote_age` is the fill timestamp minus that
anchor. -/
theorem order_lifecycle_anchor (rows : List Delta) (oid : Int) (mm : Int)
    (ts_list fp_list : List Int) (agents : List (Int × AgentInfo))
    (horizons : List Int) (row : TradeRow) :
    buildOrderLifecycle rows oid
      = ((rows.filter (fun r => namesOrderB r oid)).getLast?).map (fun r => r.timestamp)
    ∧ (∀ fill,
        processTrade mm (buildOrderLifecycle rows) ts_list fp_list agents horizons row
          = some fill →
        ∀ anchor, buildOrderLifecycle rows fill.mm_order_id = some anchor →
          fill.quote_age = row.timestamp - anchor) := by
  constructor
  · rw [buildOrderLifecycle, foldl_lifecycle]
    cases hfil : (rows.filter (fun r => namesOrderB r oid)).getLast? with
    | none => simp [hfil]
    | some r' => simp [hfil]
  · intro fill hfill anchor hanchor
    by_cases hA : row.aggressor_side = "BUY" ∧ row.seller_id = mm
    · simp only [processTrade, if_pos hA] at hfill
      cases hl : buildOrderLifecycle rows row.seller_order_id with
      | none =>
          rw [hl] at hfill
          simp at hfill
      | some birth =>
          rw [hl] at hfill
          simp only [Option.some.injEq] at hfill
          subst hfill
          simp only at hanchor
          rw [hl] at hanchor
          simp only [Option.some.injEq] at hanchor
          subst hanchor
          rfl
    · by_cases hB : row.aggressor_side = "SELL" ∧ row.buyer_id = mm
      · simp only [processTrade, if_neg hA, if_pos hB] at hfill
        cases hl : buildOrderLifecycle rows row.buyer_order_id with
        | none =>
            rw [hl] at hfill
            simp at hfill
        | some birth =>
            rw [hl] at hfill
            simp only [Option.some.injEq] at hfill
            subst hfill
            simp only at hanchor
            rw [hl] at hanchor
            simp only [Option.some.injEq] at hanchor
            subst hanchor
            rfl
      · simp only [processTrade, if_neg hA, if_neg hB] at hfill
        simp at hfill

/-- Witness for C9: the S3 scenario — ADD id 1 at tick 100, price-changing
MODIFY to id 2 at tick 300, SELL-aggressor fill of id 2 at tick 500 — has
anchor 300 and quote age 200, not 400. -/
theorem order_lifecycle_witness :
    buildOrderLifecycle lifecycleRowsEx 2 = some 300 ∧ fillSellEx.quote_age = 500 - 300 := by
  have h := order_lifecycle_anchor lifecycleRowsEx 2 10 [] [] [] [] tradeSellEx
  exact ⟨h.1.trans (by decide), h.2 fillSellEx (by decide) 300 (by decide)⟩

/-- C1 counterexample: reversing a CANCEL of an id the empty book never
held re-inserts the phantom order, so apply followed by reverse-apply does
not return the book to the empty state. -/
theorem roundtrip_cancel_counterexample :
    (applyReverseDelta (applyDelta emptyBook cancelDeltaEx) cancelDeltaEx 0).bids ≠ [] := by
  decide

/-- C1 (amended).  Single-delta round trip from the empty book holds for
ADD and FILL deltas with any field values: after `apply_delta` followed by
`apply_reverse_delta`, both sides, the registry and the birth-timestamp map
are empty again.  (For CANCEL and MODIFY the reverse unconditionally
re-inserts an order, so the round trip fails; see the counterexample.) -/
theorem roundtrip_add_fill (d : Delta) (prev : Int)
    (h : d.delta_type = DeltaType.ADD ∨ d.delta_type = DeltaType.FILL) :
    (applyReverseDelta (applyDelta emptyBook d) d prev).bids = []
    ∧ (applyReverseDelta (applyDelta emptyBook d) d prev).asks = []
    ∧ (applyReverseDelta (applyDelta emptyBook d) d prev).registry = []
    ∧ (applyReverseDelta (applyDelta emptyBook d) d prev).order_add_timestamps = [] := by
  rcases h with h | h
  · cases hs : d.side with
    | BUY =>
        simp [applyDelta, applyReverseDelta, h, hs, emptyBook, OrderBook.addOrder,
          OrderBook.removeOrder, OrderBook.getBook, OrderBook.setBook, getAssoc, setAssoc,
          setLevel, delAssoc, delLevel, removeFromQueue]
    | SELL =>
        simp [applyDelta, applyReverseDelta, h, hs, emptyBook, OrderBook.addOrder,
          OrderBook.removeOrder, OrderBook.getBook, OrderBook.setBook, getAssoc, setAssoc,
          setLevel, delAssoc, delLevel, removeFromQueue]
  · by_cases hr : d.remaining_qty = 0
    · simp [applyDelta, applyReverseDelta, h, hr, emptyBook, OrderBook.removeOrder, getAssoc]
    · simp [applyDelta, applyReverseDelta, h, hr, emptyBook, OrderBook.updateOrderQuantity,
        getAssoc]

/-- Witness for C1 (amended) at a concrete ADD delta. -/
theorem roundtrip_add_fill_witness :
    (applyReverseDelta (applyDelta emptyBook addDeltaEx) addDeltaEx 0).bids = []
    ∧ (applyReverseDelta (applyDelta emptyBook addDeltaEx) addDeltaEx 0).asks = []
    ∧ (applyReverseDelta (applyDelta emptyBook addDeltaEx) addDeltaEx 0).registry = []
    ∧ (applyReverseDelta (applyDelta emptyBook addDeltaEx) addDeltaEx 0).order_add_timestamps
        = [] :=
  roundtrip_add_fill addDeltaEx 0 (Or.inl rfl)

theorem buildIdx_entry (rows : List Row) : ∀ (i : Nat) (cur : Option Int) (k : Nat)
    (hk : k < (buildIdx rows i cur).length),
    ∃ j, ∃ hj : j < rows.length,
      ((buildIdx rows i cur).get ⟨k, hk⟩).2 = i + j
      ∧ (rows.get ⟨j, hj⟩).ts = ((buildIdx rows i cur).get ⟨k, hk⟩).1
      ∧ (j = 0 → cur ≠ some ((buildIdx rows i cur).get ⟨k, hk⟩).1)
      ∧ (∀ j', ∀ hj' : j' < rows.length, j = j' + 1 →
          (rows.get ⟨j', hj'⟩).ts ≠ ((buildIdx rows i cur).get ⟨k, hk⟩).1) := by
  induction rows with
  | nil =>
      intro i cur k hk
      simp [buildIdx] at hk
  | cons r rs ih =>
      intro i cur k hk
      by_cases hc : cur = some r.ts
      · have he : buildIdx (r :: rs) i cur = buildIdx rs (i + 1) cur := by
          simp [buildIdx, hc]
        have hk' : k < (buildIdx rs (i + 1) cur).length := by
          rw [← he]
          exact hk
        have hget : (buildIdx (r :: rs) i cur).get ⟨k, hk⟩
            = (buildIdx rs (i + 1) cur).get ⟨k, hk'⟩ := List.get_of_eq he ⟨k, hk⟩
        obtain ⟨j, hj, hoff, hts, h0, hprev⟩ := ih (i + 1) cur k hk'
        refine ⟨j + 1, by simp only [List.length_cons]; omega, ?_, ?_, ?_, ?_⟩
        · rw [hget, hoff]
          omega
        · rw [hget]
          exact hts
        · intro habs
          omega
        · intro j' hj' hjj
          rw [hget]
          have hj'j : j' = j := by omega
          subst hj'j
          cases j' with
          | zero =>
              intro habs
              exact (h0 rfl) (hc.trans (congrArg some habs))
          | succ jj =>
              have hjlt : jj + 1 < (r :: rs).length := hj'
              show (rs.get ⟨jj, by simpa using hjlt⟩).ts ≠ _
              exact hprev jj _ rfl
      · have he : buildIdx (r :: rs) i cur = (r.ts, i) :: buildIdx rs (i + 1) (some r.ts) := by
          simp [buildIdx, hc]
        cases k with
        | zero =>
            have hget : (buildIdx (r :: rs) i cur).get ⟨0, hk⟩ = (r.ts, i) := by
              rw [List.get_of_eq he ⟨0, hk⟩]
              rfl
            refine ⟨0, by simp only [List.length_cons]; omega, ?_, ?_, ?_, ?_⟩
            · rw [hget]
              rfl
            · rw [hget]
              rfl
            · intro _
              rw [hget]
              exact fun habs => hc (by simpa using habs)
            · intro j' hj' hjj
              omega
        | succ kk =>
            have hk2 : kk + 1 < ((r.ts, i) :: buildIdx rs (i + 1) (some r.ts)).length := by
              rw [← he]
              exact hk
            have hk' : kk < (buildIdx rs (i + 1) (some r.ts)).length := by
              simpa using hk2
            have hget : (buildIdx (r :: rs) i cur).get ⟨kk + 1, hk⟩
                = (buildIdx rs (i + 1) (some r.ts)).get ⟨kk, hk'⟩ := by
              rw [List.get_of_eq he ⟨kk + 1, hk⟩]
              rfl
            obtain ⟨j, hj, hoff, hts, h0, hprev⟩ := ih (i + 1) (some r.ts) kk hk'
            refine ⟨j + 1, by simp only [List.length_cons]; omega, ?_, ?_, ?_, ?_⟩
            · rw [hget, hoff]
              omega
            · rw [hget]
              exact hts
            · intro habs
              omega
            · intro j' hj' hjj
              rw [hget]
              have hj'j : j' = j := by omega
              subst hj'j
              cases j' with
              | zero =>
                  intro habs
                  exact (h0 rfl) (congrArg some habs)
              | succ jj =>
                  have hjlt : jj + 1 < (r :: rs).length := hj'
                  show (rs.get ⟨jj, by simpa using hjlt⟩).ts ≠ _
                  exact hprev jj _ rfl

theorem filter_eq_takeWhile_of_front (p : Row → Bool) (l : List Row)
    (hp : ∀ i j, ∀ hi : i < l.length, ∀ hj : j < l.length, i ≤ j →
      p (l.get ⟨j, hj⟩) = true → p (l.get ⟨i, hi⟩) = true) :
    l.filter p = l.takeWhile p := by
  induction l with
  | nil => rfl
  | cons x xs ih =>
      by_cases hx : p x = true
      · rw [List.filter_cons_of_pos hx, List.takeWhile_cons_of_pos hx]
        congr 1
        apply ih
        intro i j hi hj hij hpj
        have := hp (i + 1) (j + 1) (by simpa using hi) (by simpa using hj) (by omega)
        exact this hpj
      · rw [List.takeWhile_cons_of_neg hx, List.filter_cons_of_neg hx]
        rw [List.filter_eq_nil_iff]
        intro a ha
        rcases List.mem_iff_get.mp ha with ⟨j, hget⟩
        intro hpa
        apply hx
        have := hp 0 ((j : Nat) + 1) (by simp) (by simp) (by omega)
        apply this
        show p ((x :: xs).get ⟨(j : Nat) + 1, _⟩) = true
        have : (x :: xs).get ⟨(j : Nat) + 1, by simp⟩ = xs.get j := by
          cases j
          rfl
        rw [this, hget]
        exact hpa

theorem takeWhile_as_take (p : Row → Bool) (l : List Row) :
    l.takeWhile p = l.take ((l.takeWhile p).length) := by
  induction l with
  | nil => rfl
  | cons x xs ih =>
      by_cases hx : p x = true
      · rw [List.takeWhile_cons_of_pos hx]
        rw [List.length_cons, List.take_succ_cons]
        exact congrArg (List.cons x) ih
      · rw [List.takeWhile_cons_of_neg hx]
        rfl

theorem takeWhile_length_le (p : Row → Bool) (l : List Row) :
    (l.takeWhile p).length ≤ l.length := by
  induction l with
  | nil => simp
  | cons x xs ih =>
      by_cases hx : p x = true
      · rw [List.takeWhile_cons_of_pos hx]
        simpa using ih
      · rw [List.takeWhile_cons_of_neg hx]
        simp

theorem takeWhile_stop (p : Row → Bool) (l : List Row)
    (h : (l.takeWhile p).length < l.length) :
    p (l.get ⟨(l.takeWhile p).length, h⟩) = false := by
  induction l with
  | nil => simp at h
  | cons x xs ih =>
      by_cases hx : p x = true
      · have hlen : ((x :: xs).takeWhile p).length = (xs.takeWhile p).length + 1 := by
          rw [List.takeWhile_cons_of_pos hx, List.length_cons]
        have h' : (xs.takeWhile p).length < xs.length := by
          rw [hlen] at h
          simpa using h
        have hfin : (⟨((x :: xs).takeWhile p).length, h⟩ : Fin (x :: xs).length)
            = ⟨(xs.takeWhile p).length + 1, by simpa using h'⟩ := Fin.ext hlen
        rw [hfin]
        show p (xs.get ⟨(xs.takeWhile p).length, h'⟩) = false
        exact ih h'
      · have hlen : ((x :: xs).takeWhile p).length = 0 := by
          rw [List.takeWhile_cons_of_neg hx]
          rfl
        have hfin : (⟨((x :: xs).takeWhile p).length, h⟩ : Fin (x :: xs).length)
            = ⟨0, by simp⟩ := Fin.ext hlen
        rw [hfin]
        show p x = false
        simpa using hx

theorem readAt_eq_filter (rows : List Row) (k : Nat) (T : Int)
    (hk : k < (deltaIndex rows).length)
    (hT : ((deltaIndex rows).get ⟨k, hk⟩).1 = T)
    (hc : Contiguous rows) :
    readAtIndex rows k = rows.filter (fun r => r.ts == T) := by
  obtain ⟨j, hj, hoff, hts, h0, hprev⟩ := buildIdx_entry rows 0 none k hk
  have hoff0 : ((deltaIndex rows).get ⟨k, hk⟩).2 = 0 + j := hoff
  have hoff' : ((deltaIndex rows).get ⟨k, hk⟩).2 = j := by omega
  have hts2 : (rows.get ⟨j, hj⟩).ts = ((deltaIndex rows).get ⟨k, hk⟩).1 := hts
  have hprev2 : ∀ j', ∀ hj' : j' < rows.length, j = j' + 1 →
      (rows.get ⟨j', hj'⟩).ts ≠ ((deltaIndex rows).get ⟨k, hk⟩).1 := hprev
  have hjts : (rows.get ⟨j, hj⟩).ts = T := hts2.trans hT
  have hbefore : ∀ j', ∀ hj' : j' < rows.length, j' < j → (rows.get ⟨j', hj'⟩).ts ≠ T := by
    intro j' hj' hlt heq
    have hj1 : j - 1 < rows.length := by omega
    have hcmid := hc ⟨j', hj'⟩ ⟨j - 1, hj1⟩ ⟨j, hj⟩
      (by simp only [Fin.mk_le_mk]; omega) (by simp only [Fin.mk_le_mk]; omega)
      (by rw [heq, hjts])
    have hprev' := hprev2 (j - 1) hj1 (by omega)
    rw [hT] at hprev'
    exact hprev' (by rw [hcmid, heq])
  have hread : readAtIndex rows k = (rows.drop j).takeWhile (fun r => r.ts == T) := by
    unfold readAtIndex
    rw [dif_pos hk, hoff', hT]
  rw [hread]
  have hsplit : (rows.take j ++ rows.drop j).filter (fun r => r.ts == T)
      = rows.filter (fun r => r.ts == T) := by
    rw [List.take_append_drop]
  rw [← hsplit, List.filter_append]
  have h1 : (rows.take j).filter (fun r => r.ts == T) = [] := by
    rw [List.filter_eq_nil_iff]
    intro a ha
    rcases List.mem_iff_get.mp ha with ⟨i, hget⟩
    have hilt : (i : Nat) < j := by
      have := i.isLt
      simp only [List.length_take] at this
      omega
    have hilt2 : (i : Nat) < rows.length := by omega
    have hgt : (rows.take j).get i = rows.get ⟨i, hilt2⟩ := by
      simp [List.getElem_take]
    rw [hgt] at hget
    subst hget
    simpa using hbefore i hilt2 hilt
  rw [h1, List.nil_append]
  refine (filter_eq_takeWhile_of_front _ _ ?_).symm
  intro a b ha hb hab hpb
  have hga : j + a < rows.length := by
    simp only [List.length_drop] at ha
    omega
  have hgb : j + b < rows.length := by
    simp only [List.length_drop] at hb
    omega
  have hgeta : (rows.drop j).get ⟨a, ha⟩ = rows.get ⟨j + a, hga⟩ := by
    simp [List.getElem_drop]
  have hgetb : (rows.drop j).get ⟨b, hb⟩ = rows.get ⟨j + b, hgb⟩ := by
    simp [List.getElem_drop]
  rw [hgetb] at hpb
  have hbts : (rows.get ⟨j + b, hgb⟩).ts = T := by simpa using hpb
  have hcmid := hc ⟨j, hj⟩ ⟨j + a, hga⟩ ⟨j + b, hgb⟩
    (by simp only [Fin.mk_le_mk]; omega) (by simp only [Fin.mk_le_mk]; omega)
    (by rw [hjts, hbts])
  rw [hgeta]
  simp only [beq_iff_eq]
  rw [hcmid, hjts]

theorem readUpTo_take (rows : List Row) (k : Nat) (T : Int)
    (hk : k < (deltaIndex rows).length)
    (hT : ((deltaIndex rows).get ⟨k, hk⟩).1 = T)
    (hs : TsSorted rows) :
    ∃ m, m ≤ rows.length
      ∧ readUpToIndex rows k = rows.take m
      ∧ (∀ j', ∀ hj' : j' < rows.length, (rows.get ⟨j', hj'⟩).ts = T → j' < m)
      ∧ (∀ r ∈ readUpToIndex rows k, r.ts ≤ T) := by
  have hread : readUpToIndex rows k = rows.takeWhile (fun r => decide (r.ts ≤ T)) := by
    unfold readUpToIndex
    rw [dif_pos hk, hT]
  refine ⟨(rows.takeWhile (fun r => decide (r.ts ≤ T))).length,
    takeWhile_length_le _ _, by rw [hread]; exact takeWhile_as_take _ _, ?_, ?_⟩
  · intro j' hj' hts'
    by_contra hge
    push_neg at hge
    have hm : (rows.takeWhile (fun r => decide (r.ts ≤ T))).length < rows.length := by
      omega
    have hstop := takeWhile_stop (fun r => decide (r.ts ≤ T)) rows hm
    simp only [decide_eq_false_iff_not, not_le] at hstop
    rcases Nat.eq_or_lt_of_le hge with heq | hlt
    · have hfin : (⟨j', hj'⟩ : Fin rows.length)
          = ⟨(rows.takeWhile (fun r => decide (r.ts ≤ T))).length, hm⟩ := Fin.ext heq.symm
      rw [hfin] at hts'
      omega
    · have hpair := (List.pairwise_iff_get.mp hs)
        ⟨(rows.takeWhile (fun r => decide (r.ts ≤ T))).length, hm⟩ ⟨j', hj'⟩
        (by simp only [Fin.mk_lt_mk]; omega)
      rw [hts'] at hpair
      omega
  · intro r hr
    rw [hread] at hr
    have := List.mem_takeWhile_imp hr
    simpa using this

/-- C6 counterexample: on the contiguous but unsorted file
`[9, 9, 5, 5]`, `timestamps[1] = 5`, yet `read_deltas_up_to_index(1)`
yields nothing — it misses every row of timestamp 5 (e.g. the row at
index 3). -/
theorem replay_index_counterexample :
    Contiguous unsortedRowsEx
    ∧ idxTimestamps unsortedRowsEx = [9, 5]
    ∧ readUpToIndex unsortedRowsEx 1 = []
    ∧ (unsortedRowsEx.get ⟨3, by decide⟩).ts = 5 :=
  ⟨by decide, by decide, by decide, by decide⟩

/-- C6 (amended).  Replay-index windows: `read_deltas_at_index(k)` returns
exactly the rows of timestamp `timestamps[k]` for every contiguous file,
as claimed; `read_deltas_up_to_index(k)` yields a prefix of the file that
contains every row up to and including the last row of timestamp
`timestamps[k]` and nothing of a larger timestamp, provided the file's
rows are sorted by nondecreasing timestamp (the file contract) — mere
contiguity is not enough for the second part (see the counterexample). -/
theorem replay_index_spec (rows : List Row) (k : Nat) (T : Int)
    (hk : k < (deltaIndex rows).length)
    (hT : ((deltaIndex rows).get ⟨k, hk⟩).1 = T) :
    (Contiguous rows → readAtIndex rows k = rows.filter (fun r => r.ts == T))
    ∧ (TsSorted rows →
        ∃ m, m ≤ rows.length
          ∧ readUpToIndex rows k = rows.take m
          ∧ (∀ j', ∀ hj' : j' < rows.length, (rows.get ⟨j', hj'⟩).ts = T → j' < m)
          ∧ (∀ r ∈ readUpToIndex rows k, r.ts ≤ T)) :=
  ⟨readAt_eq_filter rows k T hk hT, readUpTo_take rows k T hk hT⟩

/-- Witness for C6 (amended) on the sorted file `[1, 1, 3, 7]` at index 1
(timestamp 3). -/
theorem replay_index_witness :
    readAtIndex sortedRowsEx 1 = [⟨3, ["c"]⟩]
    ∧ ∀ r ∈ readUpToIndex sortedRowsEx 1, r.ts ≤ 3 := by
  have h := replay_index_spec sortedRowsEx 1 3 (by decide) (by decide)
  refine ⟨(h.1 (by decide)).trans (by decide), ?_⟩
  obtain ⟨m, _, _, _, hmem⟩ := h.2 (by decide)
  exact hmem

theorem compareOrders_nil_iff (c : CppOrder) (p : Order) (inst : Int) (s : Side)
    (price : Int) (j : Nat) :
    compareOrders c p inst s price j = [] ↔ ordersAgreeB c p = true := by
  unfold compareOrders ordersAgreeB
  by_cases h1 : c.order_id = p.order_id <;>
    by_cases h2 : c.client_id = p.client_id <;>
      by_cases h3 : c.quantity = p.quantity <;>
        by_cases h4 : c.price = p.price <;>
          by_cases h5 : c.side = p.side <;>
            simp [h1, h2, h3, h4, h5]

theorem forall_mem_enumFrom {α : Type} (P : α → Prop) :
    ∀ (l : List α) (n : Nat), (∀ ij ∈ l.enumFrom n, P ij.2) ↔ ∀ x ∈ l, P x := by
  intro l
  induction l with
  | nil => intro n; simp
  | cons x xs ih =>
      intro n
      constructor
      · intro h y hy
        rcases List.mem_cons.mp hy with heq | hmem
        · subst heq
          exact h (n, y) (by simp [List.enumFrom])
        · exact (ih (n + 1)).mp (fun ij hij => h ij (by simp [List.enumFrom, hij])) y hmem
      · intro h ij hij
        simp only [List.enumFrom] at hij
        rcases List.mem_cons.mp hij with heq | hmem
        · subst heq
          exact h x (by simp)
        · exact (ih (n + 1)).mpr (fun y hy => h y (List.mem_cons_of_mem _ hy)) ij hmem

theorem getAssoc_of_mem_nodup {α : Type} (l : List (Int × α)) (p : Int) (q : α)
    (hnd : (l.map Prod.fst).Nodup) (hm : (p, q) ∈ l) :
    getAssoc l p = some q := by
  induction l with
  | nil => cases hm
  | cons kv rest ih =>
      obtain ⟨k, v⟩ := kv
      rcases List.mem_cons.mp hm with heq | hmem
      · rw [Prod.mk.injEq] at heq
        simp [getAssoc, heq.1, heq.2]
      · have hk : k ≠ p := by
          intro hkp
          subst hkp
          have : k ∈ rest.map Prod.fst := List.mem_map_of_mem Prod.fst hmem
          exact (List.nodup_cons.mp (by simpa using hnd)).1 this
        have hkb : (k == p) = false := by
          rw [beq_eq_false_iff_ne]
          exact hk
        have := ih (by simpa using (List.nodup_cons.mp (by simpa using hnd)).2) hmem
        simpa [getAssoc, List.find?_cons, hkb] using this

theorem compareOrders_flatMap_nil (c : CppLevel) (q : List Order) (inst : Int) (s : Side) :
    ((c.orders.zip q).enum.flatMap
      (fun jp => compareOrders jp.2.1 jp.2.2 inst s c.price jp.1)) = []
    ↔ (c.orders.zip q).all (fun cp => ordersAgreeB cp.1 cp.2) = true := by
  rw [List.flatMap_eq_nil_iff]
  have hiff := forall_mem_enumFrom
    (fun pr : CppOrder × Order => ordersAgreeB pr.1 pr.2 = true) (c.orders.zip q) 0
  constructor
  · intro h
    rw [List.all_eq_true]
    refine hiff.mp ?_
    intro ij hij
    exact (compareOrders_nil_iff _ _ _ _ _ _).mp (h ij hij)
  · intro h ij hij
    rw [compareOrders_nil_iff]
    exact hiff.mpr (fun x hx => List.all_eq_true.mp h x hx) ij hij

theorem compareLevelsAux_nil_iff (pySide : List (Int × List Order)) (s : Side) (inst : Int)
    (hnd : ∀ p q, (p, q) ∈ pySide → getAssoc pySide p = some q) :
    ∀ (cs : List CppLevel) (ps : List (Int × List Order)) (i : Nat),
      cs.length = ps.length → (∀ x ∈ ps, x ∈ pySide) →
      (compareLevelsAux pySide s inst i cs ps = []
        ↔ (cs.zip ps).all (fun x => levelPairB x.1 x.2) = true) := by
  intro cs
  induction cs with
  | nil =>
      intro ps i hlen hsub
      simp [compareLevelsAux]
  | cons c cs' ih =>
      intro ps i hlen hsub
      cases ps with
      | nil => simp at hlen
      | cons pq ps' =>
          obtain ⟨p, q⟩ := pq
          have hq : getAssoc pySide p = some q := hnd p q (hsub (p, q) (by simp))
          have hlen' : cs'.length = ps'.length := by simpa using hlen
          have hsub' : ∀ x ∈ ps', x ∈ pySide := fun x hx => hsub x (List.mem_cons_of_mem _ hx)
          have ihx := ih ps' (i + 1) hlen' hsub'
          by_cases hp : c.price = p
          · by_cases hql : c.orders.length = q.length
            · have e1 : (c.price == p) = true := by simp [hp]
              have e2 : (c.orders.length == q.length) = true := by simp [hql]
              simp only [compareLevelsAux, hq, Option.getD_some,
                if_neg (show ¬(c.price ≠ p) from by simpa using hp),
                if_neg (show ¬(c.orders.length ≠ q.length) from by simpa using hql),
                List.append_eq_nil, ihx, List.zip_cons_cons, List.all_cons, levelPairB,
                e1, e2, Bool.true_and, Bool.and_eq_true, compareOrders_flatMap_nil]
            · have e2 : (c.orders.length == q.length) = false := by simp [hql]
              simp [compareLevelsAux, hq, hp, hql, levelPairB, e2]
          · have e1 : (c.price == p) = false := by
              rw [beq_eq_false_iff_ne]
              exact hp
            simp [compareLevelsAux, hq, hp, levelPairB, e1]

theorem compareSide_nil_iff (cppLevels : List CppLevel) (pySide : List (Int × List Order))
    (s : Side) (inst : Int) (hnd : (pySide.map Prod.fst).Nodup) :
    compareSide cppLevels pySide s inst = [] ↔ sideMatchesB cppLevels pySide = true := by
  unfold compareSide sideMatchesB
  by_cases hlen : cppLevels.length = pySide.length
  · have e1 : (cppLevels.length == pySide.length) = true := by simp [hlen]
    have hdrop : pySide.drop cppLevels.length = [] := by
      rw [hlen]
      exact List.drop_length pySide
    simp only [if_neg (show ¬(cppLevels.length ≠ pySide.length) from by simpa using hlen),
      hdrop, List.map_nil, List.append_nil, List.nil_append, e1, Bool.true_and]
    exact compareLevelsAux_nil_iff pySide s inst
      (fun p q hm => getAssoc_of_mem_nodup pySide p q hnd hm)
      cppLevels pySide 0 hlen (fun x hx => hx)
  · have e1 : (cppLevels.length == pySide.length) = false := by simp [hlen]
    simp [hlen, e1]

theorem pnlFieldDiffs_nil_iff (tol : Int) (c : Int) (cv pv : PnLFields) :
    ((if tol < |cv.long_position - pv.long_position| then [Diff.pnlField c "long_position"]
        else [])
      ++ (if tol < |cv.short_position - pv.short_position|
            then [Diff.pnlField c "short_position"] else [])
      ++ (if tol < |cv.cash - pv.cash| then [Diff.pnlField c "cash"] else [])) = []
    ↔ pnlFieldsOkB tol cv pv = true := by
  unfold pnlFieldsOkB
  by_cases h1 : tol < |cv.long_position - pv.long_position| <;>
    by_cases h2 : tol < |cv.short_position - pv.short_position| <;>
      by_cases h3 : tol < |cv.cash - pv.cash| <;>
        simp [h1, h2, h3, not_lt.mp]

theorem filter_not_contains_nil_iff (xs ys : List Int) :
    xs.filter (fun c => !ys.contains c) = [] ↔ xs.all (fun c => ys.contains c) = true := by
  rw [List.filter_eq_nil_iff, List.all_eq_true]
  constructor
  · intro h c hc
    have := h c hc
    simpa using this
  · intro h c hc
    simpa using List.mem_of_elem_eq_true (h c hc)

theorem comparePnl_nil_iff (tol : Int) (cppPnl pyPnl : List (Int × PnLFields)) :
    comparePnl tol cppPnl pyPnl = [] ↔ pnlMatchesB tol cppPnl pyPnl = true := by
  simp only [comparePnl, pnlMatchesB]
  rw [List.append_eq_nil, List.append_eq_nil, Bool.and_eq_true, Bool.and_eq_true]
  have hA : (if ((cppPnl.map Prod.fst).dedup.filter
        (fun c => !(pyPnl.map Prod.fst).dedup.contains c)) ≠ [] then
        [Diff.pnlOnlyCpp ((cppPnl.map Prod.fst).dedup.filter
          (fun c => !(pyPnl.map Prod.fst).dedup.contains c))] else []) = []
      ↔ (cppPnl.map Prod.fst).dedup.all (fun c => (pyPnl.map Prod.fst).dedup.contains c)
          = true := by
    by_cases hcase : ((cppPnl.map Prod.fst).dedup.filter
        (fun c => !(pyPnl.map Prod.fst).dedup.contains c)) = []
    · simp [hcase, (filter_not_contains_nil_iff _ _).mp hcase]
    · simp only [if_pos hcase]
      constructor
      · intro habs
        cases habs
      · intro habs
        exact absurd ((filter_not_contains_nil_iff _ _).mpr habs) hcase
  have hB : (if ((pyPnl.map Prod.fst).dedup.filter
        (fun c => !(cppPnl.map Prod.fst).dedup.contains c)) ≠ [] then
        [Diff.pnlOnlyPy ((pyPnl.map Prod.fst).dedup.filter
          (fun c => !(cppPnl.map Prod.fst).dedup.contains c))] else []) = []
      ↔ (pyPnl.map Prod.fst).dedup.all (fun c => (cppPnl.map Prod.fst).dedup.contains c)
          = true := by
    by_cases hcase : ((pyPnl.map Prod.fst).dedup.filter
        (fun c => !(cppPnl.map Prod.fst).dedup.contains c)) = []
    · simp [hcase, (filter_not_contains_nil_iff _ _).mp hcase]
    · simp only [if_pos hcase]
      constructor
      · intro habs
        cases habs
      · intro habs
        exact absurd ((filter_not_contains_nil_iff _ _).mpr habs) hcase
  have hC : (((cppPnl.map Prod.fst).dedup.filter
        (fun c => (pyPnl.map Prod.fst).dedup.contains c)).flatMap (fun c =>
        (if tol < abs (((getAssoc cppPnl c).getD zeroFields).long_position
            - ((getAssoc pyPnl c).getD zeroFields).long_position) then
          [Diff.pnlField c "long_position"] else [])
        ++ (if tol < abs (((getAssoc cppPnl c).getD zeroFields).short_position
              - ((getAssoc pyPnl c).getD zeroFields).short_position) then
            [Diff.pnlField c "short_position"] else [])
        ++ (if tol < abs (((getAssoc cppPnl c).getD zeroFields).cash
                - ((getAssoc pyPnl c).getD zeroFields).cash) then
              [Diff.pnlField c "cash"] else []))) = []
      ↔ (cppPnl.map Prod.fst).dedup.all (fun c =>
          !(pyPnl.map Prod.fst).dedup.contains c
            || pnlFieldsOkB tol ((getAssoc cppPnl c).getD zeroFields)
                ((getAssoc pyPnl c).getD zeroFields)) = true := by
    rw [List.flatMap_eq_nil_iff, List.all_eq_true]
    constructor
    · intro h c hc
      by_cases hm : (pyPnl.map Prod.fst).dedup.contains c = true
      · have := h c (List.mem_filter.mpr ⟨hc, hm⟩)
        rw [pnlFieldDiffs_nil_iff] at this
        simp [hm, this]
      · have hm' : (pyPnl.map Prod.fst).dedup.contains c = false := by
          revert hm
          cases (pyPnl.map Prod.fst).dedup.contains c <;> simp
        show (!(pyPnl.map Prod.fst).dedup.contains c
            || pnlFieldsOkB tol ((getAssoc cppPnl c).getD zeroFields)
                ((getAssoc pyPnl c).getD zeroFields)) = true
        rw [hm']
        rfl
    · intro h c hcf
      have hmem := List.mem_filter.mp hcf
      have hx := h c hmem.1
      rw [hmem.2] at hx
      simp only [Bool.not_true, Bool.false_or] at hx
      rw [pnlFieldDiffs_nil_iff]
      exact hx
  rw [hA, hB, hC]

theorem lookup_book_nodup (pyBooks : List (Int × OrderBook)) (inst : Int)
    (hnd : ∀ ib ∈ pyBooks, (ib.2.bids.map Prod.fst).Nodup ∧ (ib.2.asks.map Prod.fst).Nodup) :
    ((((getAssoc pyBooks inst).getD emptyBook).bids.map Prod.fst).Nodup
      ∧ (((getAssoc pyBooks inst).getD emptyBook).asks.map Prod.fst).Nodup) := by
  cases hgb : getAssoc pyBooks inst with
  | none => simp [emptyBook]
  | some bk =>
      unfold getAssoc at hgb
      cases hf : pyBooks.find? (fun kv => kv.1 == inst) with
      | none =>
          rw [hf] at hgb
          simp at hgb
      | some kv =>
          rw [hf] at hgb
          have hmem := List.mem_of_find?_eq_some hf
          have h2 : kv.2 = bk := by simpa using hgb
          simp only [Option.getD_some]
          rw [← h2]
          exact hnd kv hmem

theorem bookDiffs_nil_iff (cpp : CppState) (pyBooks : List (Int × OrderBook))
    (hnd : ∀ ib ∈ pyBooks, (ib.2.bids.map Prod.fst).Nodup ∧ (ib.2.asks.map Prod.fst).Nodup) :
    (((cpp.order_books.map Prod.fst).dedup.filter
        (fun c => (pyBooks.map Prod.fst).dedup.contains c)).flatMap (fun inst =>
        compareOrderBooks ((getAssoc cpp.order_books inst).getD emptyCppBook)
          ((getAssoc pyBooks inst).getD emptyBook) inst)) = []
    ↔ (cpp.order_books.map Prod.fst).dedup.all (fun inst =>
        !(pyBooks.map Prod.fst).dedup.contains inst
          || bookMatchesB ((getAssoc cpp.order_books inst).getD emptyCppBook)
              ((getAssoc pyBooks inst).getD emptyBook)) = true := by
  rw [List.flatMap_eq_nil_iff, List.all_eq_true]
  constructor
  · intro h inst hinst
    by_cases hm : (pyBooks.map Prod.fst).dedup.contains inst = true
    · have hx := h inst (List.mem_filter.mpr ⟨hinst, hm⟩)
      unfold compareOrderBooks at hx
      rw [List.append_eq_nil] at hx
      have hb := lookup_book_nodup pyBooks inst hnd
      have h1 := (compareSide_nil_iff _ _ Side.BUY inst hb.1).mp hx.1
      have h2 := (compareSide_nil_iff _ _ Side.SELL inst hb.2).mp hx.2
      show (!(pyBooks.map Prod.fst).dedup.contains inst
          || bookMatchesB ((getAssoc cpp.order_books inst).getD emptyCppBook)
              ((getAssoc pyBooks inst).getD emptyBook)) = true
      rw [hm]
      simp only [Bool.not_true, Bool.false_or]
      unfold bookMatchesB
      rw [h1, h2]
      rfl
    · have hm' : (pyBooks.map Prod.fst).dedup.contains inst = false := by
        revert hm
        cases (pyBooks.map Prod.fst).dedup.contains inst <;> simp
      show (!(pyBooks.map Prod.fst).dedup.contains inst
          || bookMatchesB ((getAssoc cpp.order_books inst).getD emptyCppBook)
              ((getAssoc pyBooks inst).getD emptyBook)) = true
      rw [hm']
      rfl
  · intro h inst hf
    have hmem := List.mem_filter.mp hf
    have hx := h inst hmem.1
    rw [hmem.2] at hx
    simp only [Bool.not_true, Bool.false_or] at hx
    unfold bookMatchesB at hx
    rw [Bool.and_eq_true] at hx
    have hb := lookup_book_nodup pyBooks inst hnd
    unfold compareOrderBooks
    rw [List.append_eq_nil]
    exact ⟨(compareSide_nil_iff _ _ Side.BUY inst hb.1).mpr hx.1,
      (compareSide_nil_iff _ _ Side.SELL inst hb.2).mpr hx.2⟩

/-- C5.  Comparator completeness: `compare_full_state` reports
`match = true` exactly when its difference list is empty, and the
difference list is empty exactly when the instrument-id sets agree, every
instrument's two sides match level by level and order by order on the five
compared fields, and the PnL maps have equal client sets with every shared
client's fields within the tolerance.  The hypothesis is the `SortedDict`
representation invariant: each Python book side has no duplicate price
keys. -/
theorem comparator_spec (tol : Int) (cpp : CppState) (pyBooks : List (Int × OrderBook))
    (pyPnl : List (Int × PnLFields))
    (hnd : ∀ ib ∈ pyBooks, (ib.2.bids.map Prod.fst).Nodup ∧ (ib.2.asks.map Prod.fst).Nodup) :
    ((compareFullState tol cpp pyBooks pyPnl).isMatch = true
      ↔ (compareFullState tol cpp pyBooks pyPnl).differences = [])
    ∧ ((compareFullState tol cpp pyBooks pyPnl).differences = []
      ↔ stateMatchesB tol cpp pyBooks pyPnl = true) := by
  constructor
  · simp only [compareFullState]
    exact List.isEmpty_iff
  · simp only [compareFullState, stateMatchesB]
    rw [List.append_eq_nil, List.append_eq_nil, List.append_eq_nil,
      Bool.and_eq_true, Bool.and_eq_true, Bool.and_eq_true]
    have hA : (if ((cpp.order_books.map Prod.fst).dedup.filter
          (fun c => !(pyBooks.map Prod.fst).dedup.contains c)) ≠ [] then
          [Diff.booksOnlyCpp ((cpp.order_books.map Prod.fst).dedup.filter
            (fun c => !(pyBooks.map Prod.fst).dedup.contains c))] else []) = []
        ↔ (cpp.order_books.map Prod.fst).dedup.all
            (fun c => (pyBooks.map Prod.fst).dedup.contains c) = true := by
      by_cases hcase : ((cpp.order_books.map Prod.fst).dedup.filter
          (fun c => !(pyBooks.map Prod.fst).dedup.contains c)) = []
      · simp [hcase, (filter_not_contains_nil_iff _ _).mp hcase]
      · simp only [if_pos hcase]
        constructor
        · intro habs
          cases habs
        · intro habs
          exact absurd ((filter_not_contains_nil_iff _ _).mpr habs) hcase
    have hB : (if ((pyBooks.map Prod.fst).dedup.filter
          (fun c => !(cpp.order_books.map Prod.fst).dedup.contains c)) ≠ [] then
          [Diff.booksOnlyPy ((pyBooks.map Prod.fst).dedup.filter
            (fun c => !(cpp.order_books.map Prod.fst).dedup.contains c))] else []) = []
        ↔ (pyBooks.map Prod.fst).dedup.all
            (fun c => (cpp.order_books.map Prod.fst).dedup.contains c) = true := by
      by_cases hcase : ((pyBooks.map Prod.fst).dedup.filter
          (fun c => !(cpp.order_books.map Prod.fst).dedup.contains c)) = []
      · simp [hcase, (filter_not_contains_nil_iff _ _).mp hcase]
      · simp only [if_pos hcase]
        constructor
        · intro habs
          cases habs
        · intro habs
          exact absurd ((filter_not_contains_nil_iff _ _).mpr habs) hcase
    rw [hA, hB, bookDiffs_nil_iff cpp pyBooks hnd, comparePnl_nil_iff]

/-- Witness for C5 on the empty reference state, empty book map and empty
PnL map. -/
theorem comparator_witness :
    ((compareFullState 0 ⟨[], [], 0, 0⟩ [] []).differences = []
      ↔ stateMatchesB 0 ⟨[], [], 0, 0⟩ [] [] = true) :=
  (comparator_spec 0 ⟨[], [], 0, 0⟩ [] [] (by simp)).2
